import Mathlib

/-!
Verification of the market-data feed handler core: a shallow embedding of
the binary wire codec (`binary_protocol_v2.hpp`), the sequence tracker
(`sequence_tracker.hpp`), the price-level order book (`order_book.hpp`),
the reassembly ring buffer (`ring_buffer.hpp`), the UDP sequence gap
tracker (`udp_protocol.hpp`), the connection state machine
(`connection_manager.hpp`), and the TCP frame-processing loop
(`feed_handler_snapshot.cpp`), together with proofs of the specified
properties.

Machine integers are embedded as `Nat` (with explicit `% 2^w` where the
source's unsigned arithmetic can wrap) or `Int` for signed quantities.
Bytes are `Nat` values below 256.  The IEEE-754 binary32 `price` travels
through the codec as its 32-bit bit pattern (the source serialises it by
`memcpy` into a `uint32_t` and byte-swapping), so it is embedded as that
bit pattern, a `Nat` below `2^32`.
-/

namespace FeedCore

/-! ## Big-endian byte strings

The source writes multi-byte integers with `htonl` / `htonll`
(big-endian on the wire) and reads them back with `ntohl` / `ntohll`.
`toBytesBE w v` is the `w`-byte big-endian encoding of `v`;
`fromBytesBE` folds bytes back into a value. -/

def toBytesBE : Nat → Nat → List Nat
  | 0, _ => []
  | w + 1, v => toBytesBE w (v / 256) ++ [v % 256]

def fromBytesBE (l : List Nat) : Nat :=
  l.foldl (fun acc b => acc * 256 + b) 0

/-! ## Binary protocol v2 (`include/binary_protocol_v2.hpp`)

Header layout: `[4-byte length][1-byte type][8-byte sequence]`, 13 bytes.
Tick payload: `[8-byte timestamp][4-byte symbol][4-byte price bits]
[4-byte volume]`, 20 bytes.  Heartbeat payload: `[8-byte timestamp]`. -/

def TICK : Nat := 0x01

def HEARTBEAT : Nat := 0xFF

def HEADER_SIZE : Nat := 13

def TICK_PAYLOAD_SIZE : Nat := 20

def HEARTBEAT_PAYLOAD_SIZE : Nat := 8

structure MessageHeader where
  length : Nat
  type : Nat
  sequence : Nat
  deriving DecidableEq, Repr

structure TickPayload where
  timestamp : Nat
  symbol : List Nat
  priceBits : Nat
  volumeBits : Nat
  deriving DecidableEq, Repr

structure HeartbeatPayload where
  timestamp : Nat
  deriving DecidableEq, Repr

/-- `serialize_header(message, type, sequence, payload_size)`: appends the
4-byte big-endian length, the type byte, and the 8-byte big-endian
sequence.  The type byte is the `uint8_t` cast of the enum value. -/
def serialize_header (type : Nat) (sequence : Nat) (payload_size : Nat) : List Nat :=
  toBytesBE 4 payload_size ++ [type % 256] ++ toBytesBE 8 sequence

/-- `serialize_tick(sequence, timestamp, symbol, price, volume)`: header
with type `TICK` and payload size 20, then the 8-byte timestamp, the raw
4-byte symbol, the byte-swapped 32-bit price pattern, and the byte-swapped
32-bit volume.  `priceBits` and `volumeBits` are the 32-bit storage of the
`float` / `int32_t` arguments. -/
def serialize_tick (sequence timestamp : Nat) (symbol : List Nat)
    (priceBits volumeBits : Nat) : List Nat :=
  serialize_header TICK sequence TICK_PAYLOAD_SIZE ++
    toBytesBE 8 timestamp ++ symbol ++ toBytesBE 4 priceBits ++ toBytesBE 4 volumeBits

/-- `serialize_heartbeat(sequence, timestamp)`: header with type
`HEARTBEAT` and payload size 8, then the 8-byte timestamp. -/
def serialize_heartbeat (sequence timestamp : Nat) : List Nat :=
  serialize_header HEARTBEAT sequence HEARTBEAT_PAYLOAD_SIZE ++ toBytesBE 8 timestamp

/-- `deserialize_header(data)`: reads 4 bytes of length, 1 type byte, and
8 bytes of sequence from the start of `data`.  The source reads through a
raw pointer with no length check; absent bytes read as zero here
(`List.take` of a short list is short, and folding fewer bytes yields the
value of the bytes present). -/
def deserialize_header (data : List Nat) : MessageHeader :=
  { length := fromBytesBE (data.take 4)
    type := (data.drop 4).headD 0
    sequence := fromBytesBE ((data.drop 5).take 8) }

/-- `deserialize_tick_payload(payload)`: 8-byte timestamp, 4-byte symbol,
4-byte price pattern, 4-byte volume. -/
def deserialize_tick_payload (payload : List Nat) : TickPayload :=
  { timestamp := fromBytesBE (payload.take 8)
    symbol := (payload.drop 8).take 4
    priceBits := fromBytesBE ((payload.drop 12).take 4)
    volumeBits := fromBytesBE ((payload.drop 16).take 4) }

/-- `deserialize_heartbeat_payload(payload)`: 8-byte timestamp. -/
def deserialize_heartbeat_payload (payload : List Nat) : HeartbeatPayload :=
  { timestamp := fromBytesBE (payload.take 8) }

/-! ## Sequence tracker (`include/sequence_tracker.hpp`)

State is two `uint64_t` fields; `UINT64_MAX` is the "not initialised"
sentinel.  `process_sequence` returns `true` for the first message and
in-order messages, `false` for gaps and out-of-order/duplicate inputs. -/

namespace SeqTracker

def UINT64_MAX : Nat := 2 ^ 64 - 1

structure State where
  last_sequence : Nat
  gaps_detected : Nat
  deriving DecidableEq, Repr

def init : State := ⟨UINT64_MAX, 0⟩

/-- `SequenceTracker::process_sequence(sequence)`.  `expected` is the
`uint64_t` sum `last_sequence_ + 1`, hence the `% 2^64`. -/
def process_sequence (st : State) (sequence : Nat) : State × Bool :=
  if st.last_sequence = UINT64_MAX then
    ({ st with last_sequence := sequence }, true)
  else
    let expected := (st.last_sequence + 1) % 2 ^ 64
    if sequence = expected then
      ({ st with last_sequence := sequence }, true)
    else if sequence > expected then
      ({ last_sequence := sequence, gaps_detected := st.gaps_detected + 1 }, false)
    else
      (st, false)

/-- `SequenceTracker::reset()`: restores the sentinel, keeps the
cumulative gap counter. -/
def reset (st : State) : State := { st with last_sequence := UINT64_MAX }

/-- `SequenceTracker::last_sequence()`: the `std::optional` accessor. -/
def last_sequenceOpt (st : State) : Option Nat :=
  if st.last_sequence = UINT64_MAX then none else some st.last_sequence

/-- `SequenceTracker::has_received_message()`. -/
def has_received_message (st : State) : Bool :=
  st.last_sequence ≠ UINT64_MAX

/-- Feed a list of sequence numbers through the tracker, collecting the
boolean results in order. -/
def process_list (st : State) : List Nat → State × List Bool
  | [] => (st, [])
  | x :: rest =>
    let r := process_sequence st x
    let rs := process_list r.1 rest
    (rs.1, r.2 :: rs.2)

end SeqTracker

/-! ## Price-level order book (`include/order_book.hpp`)

Each side is a `std::map<float, uint64_t>`: a set of price levels ordered
by strictly increasing price key.  The embedding represents a side as an
association list sorted by strictly increasing key, which is the ordered
structure `std::map` maintains; the `float` key domain (IEEE binary32
values, never NaN here) is order-embedded as `Int` since the book only
ever compares keys.  `insertLevel` is `map::operator[]` assignment
(insert or overwrite), `eraseLevel` is `map::erase(key)`. -/

namespace OrderBook

abbrev Price := Int

def insertLevel (p : Price) (q : Nat) : List (Price × Nat) → List (Price × Nat)
  | [] => [(p, q)]
  | (p', q') :: rest =>
    if p < p' then (p, q) :: (p', q') :: rest
    else if p = p' then (p, q) :: rest
    else (p', q') :: insertLevel p q rest

def eraseLevel (p : Price) : List (Price × Nat) → List (Price × Nat)
  | [] => []
  | (p', q') :: rest => if p = p' then rest else (p', q') :: eraseLevel p rest

structure Book where
  bids : List (Price × Nat)
  asks : List (Price × Nat)
  deriving DecidableEq, Repr

/-- `OrderBook::clear()`. -/
def clear (_b : Book) : Book := ⟨[], []⟩

/-- One side of `OrderBook::load_snapshot`: inserts every level with
`quantity > 0`, in input order, into an empty side. -/
def loadSide (levels : List (Price × Nat)) : List (Price × Nat) :=
  levels.foldl (fun m lv => if lv.2 > 0 then insertLevel lv.1 lv.2 m else m) []

/-- `OrderBook::load_snapshot(bids, asks)`: `clear()` then filtered
insertion on both sides. -/
def load_snapshot (bids asks : List (Price × Nat)) : Book :=
  ⟨loadSide bids, loadSide asks⟩

/-- The body of `OrderBook::apply_update` acting on the selected side:
`quantity == 0` deletes the level, `quantity > 0` inserts or overwrites
(with the `uint64_t` cast of the positive quantity), negative quantity is
logged and dropped. -/
def applySideUpdate (m : List (Price × Nat)) (price : Price) (quantity : Int) :
    List (Price × Nat) :=
  if quantity = 0 then eraseLevel price m
  else if quantity > 0 then insertLevel price quantity.toNat m
  else m

/-- `OrderBook::apply_update(side, price, quantity)`: `side == 0` selects
the bid side, any other byte value selects the ask side. -/
def apply_update (b : Book) (side : Nat) (price : Price) (quantity : Int) : Book :=
  if side = 0 then { b with bids := applySideUpdate b.bids price quantity }
  else { b with asks := applySideUpdate b.asks price quantity }

/-- `OrderBook::get_best_bid`: the highest bid (`bids_.rbegin()`), absent
exactly when the bid side is empty. -/
def get_best_bid (b : Book) : Option (Price × Nat) := b.bids.getLast?

/-- `OrderBook::get_best_ask`: the lowest ask (`asks_.begin()`), absent
exactly when the ask side is empty. -/
def get_best_ask (b : Book) : Option (Price × Nat) := b.asks.head?

def bid_depth (b : Book) : Nat := b.bids.length

def ask_depth (b : Book) : Nat := b.asks.length

def emptyBook (b : Book) : Bool := b.bids.isEmpty && b.asks.isEmpty

/-- The operations of claim C3: any mix of `clear`, `load_snapshot`, and
`apply_update`. -/
inductive Op where
  | clearOp : Op
  | snapshot (bids asks : List (Price × Nat)) : Op
  | update (side : Nat) (price : Price) (quantity : Int) : Op
  deriving DecidableEq, Repr

def applyOp (b : Book) : Op → Book
  | .clearOp => clear b
  | .snapshot bids asks => load_snapshot bids asks
  | .update side price quantity => apply_update b side price quantity

/-- Run a sequence of operations from the initial (empty) book. -/
def runOps (ops : List Op) : Book :=
  ops.foldl applyOp ⟨[], []⟩

/-- The ordering invariant of a `std::map`: keys strictly increasing. -/
def SideSorted (m : List (Price × Nat)) : Prop :=
  List.Pairwise (fun a b => a.1 < b.1) m

/-- No level with quantity zero. -/
def SidePos (m : List (Price × Nat)) : Prop :=
  ∀ lv ∈ m, 0 < lv.2

def BookInv (b : Book) : Prop :=
  (SideSorted b.bids ∧ SidePos b.bids) ∧ (SideSorted b.asks ∧ SidePos b.asks)

end OrderBook

/-! ## Reassembly ring buffer (`include/ring_buffer.hpp`)

A fixed 1 MiB byte ring with `read_pos_`, `write_pos_` and an explicit
`size_` counter.  The buffer storage is embedded as a function from index
to byte.  `get_write_ptr` returns a pointer into the buffer together with
the largest contiguous writable span; an external `recv` then writes
`data` contiguously from `write_pos_` and the caller calls
`commit_write(data.length)` — `writeOp` below is that compound step. -/

namespace RingBuffer

def BUFFER_SIZE : Nat := 1024 * 1024

structure State where
  buf : Nat → Nat
  read_pos : Nat
  write_pos : Nat
  size : Nat

def init : State := ⟨fun _ => 0, 0, 0, 0⟩

/-- The length component of `RingBuffer::get_write_ptr()` (the pointer
component is `buffer_ + write_pos_`). -/
def writableLen (st : State) : Nat :=
  if st.read_pos ≤ st.write_pos then
    let space := BUFFER_SIZE - st.write_pos
    if st.read_pos = 0 ∧ 0 < space then space - 1 else space
  else
    st.read_pos - st.write_pos - 1

/-- The external `memcpy`/`recv` into the region returned by
`get_write_ptr`: stores `data` at consecutive raw indices starting at
`pos` (the span never wraps, by the length contract). -/
def writeBytes (buf : Nat → Nat) (pos : Nat) : List Nat → Nat → Nat
  | [] => buf
  | b :: rest => writeBytes (Function.update buf pos b) (pos + 1) rest

/-- Write `data` into the writable region, then
`RingBuffer::commit_write(data.length)`. -/
def writeOp (st : State) (data : List Nat) : State :=
  { buf := fun i => writeBytes st.buf st.write_pos data i
    read_pos := st.read_pos
    write_pos := (st.write_pos + data.length) % BUFFER_SIZE
    size := st.size + data.length }

/-- `RingBuffer::available()`. -/
def available (st : State) : Nat := st.size

/-- `RingBuffer::peek_bytes(output, n)`: fails when `n > size_`;
otherwise copies the `n` bytes starting at `read_pos_`, handling
wrap-around (byte `i` comes from raw index `(read_pos_ + i) % BUFFER_SIZE`,
which covers both `memcpy` arms of the source). -/
def peek_bytes (st : State) (n : Nat) : Option (List Nat) :=
  if n ≤ st.size then
    some ((List.range n).map fun i => st.buf ((st.read_pos + i) % BUFFER_SIZE))
  else
    none

/-- `RingBuffer::consume(n)`: clamps `n` to `size_`, advances `read_pos_`
modulo the capacity and shrinks `size_`. -/
def consume (st : State) (n : Nat) : State :=
  let n' := min n st.size
  { st with read_pos := (st.read_pos + n') % BUFFER_SIZE, size := st.size - n' }

/-- `RingBuffer::read_bytes(output, n)`: `peek_bytes` then `consume`;
returns `none` (the source returns `false`) when fewer than `n` bytes are
available, and then consumes nothing. -/
def read_bytes (st : State) (n : Nat) : State × Option (List Nat) :=
  match peek_bytes st n with
  | none => (st, none)
  | some out => (consume st n, some out)

/-- The ring-buffer operations quantified over in claim C4. -/
inductive Op where
  | write (data : List Nat) : Op
  | read (n : Nat) : Op
  | consumeOp (n : Nat) : Op

def step (st : State) : Op → State
  | .write data => writeOp st data
  | .read n => (read_bytes st n).1
  | .consumeOp n => consume st n

def run (st : State) : List Op → State
  | [] => st
  | op :: rest => run (step st op) rest

/-- Validity of a trace: every `commit_write(n)` satisfies `n ≤` the
length returned by the immediately preceding `get_write_ptr()`. -/
def validFrom (st : State) : List Op → Bool
  | [] => true
  | .write data :: rest =>
    decide (data.length ≤ writableLen st) && validFrom (step st (.write data)) rest
  | op :: rest => validFrom (step st op) rest

/-- Bytes committed by a trace, in commit order. -/
def committedBytes : List Op → List Nat
  | [] => []
  | .write data :: rest => data ++ committedBytes rest
  | _ :: rest => committedBytes rest

/-- Total bytes committed by a trace. -/
def committedTotal : List Op → Nat
  | [] => 0
  | .write data :: rest => data.length + committedTotal rest
  | _ :: rest => committedTotal rest

/-- Total bytes actually consumed by a trace (a failed `read_bytes`
consumes nothing; `consume` clamps). -/
def consumedFrom (st : State) : List Op → Nat
  | [] => 0
  | .write data :: rest => consumedFrom (step st (.write data)) rest
  | .read n :: rest =>
    (if n ≤ st.size then n else 0) + consumedFrom (step st (.read n)) rest
  | .consumeOp n :: rest => min n st.size + consumedFrom (step st (.consumeOp n)) rest

/-- The committed-but-unconsumed bytes currently held, in commit order. -/
def contents (st : State) : List Nat :=
  (List.range st.size).map fun i => st.buf ((st.read_pos + i) % BUFFER_SIZE)

/-- The structural invariant of a reachable buffer state: the read
cursor is in range, the write cursor sits `size` bytes past it (modulo
the capacity), and one byte stays reserved so a full buffer is
distinguishable from an empty one. -/
def Good (st : State) : Prop :=
  st.read_pos < BUFFER_SIZE ∧
  st.write_pos = (st.read_pos + st.size) % BUFFER_SIZE ∧
  st.size ≤ BUFFER_SIZE - 1

end RingBuffer

/-! ## UDP sequence gap tracker (`include/udp_protocol.hpp`)

`gaps_` is a `std::set<uint64_t>`: embedded as a strictly increasing
list. `setInsert` / `setErase` are `std::set::insert` / `erase`. -/

namespace GapTracker

def setInsert (x : Nat) : List Nat → List Nat
  | [] => [x]
  | y :: rest =>
    if x < y then x :: y :: rest
    else if x = y then y :: rest
    else y :: setInsert x rest

def setErase (x : Nat) : List Nat → List Nat
  | [] => []
  | y :: rest => if x = y then rest else y :: setErase x rest

structure State where
  last_sequence : Nat
  first_message : Bool
  total_gaps : Nat
  gaps : List Nat
  deriving DecidableEq, Repr

def init : State := ⟨0, true, 0, []⟩

/-- Insert every value in `[expected, sequence)` into the gap set,
incrementing `total_gaps_` per value (the `for` loop of the gap branch). -/
def insertRange (st : State) (expected sequence : Nat) : State :=
  (List.range' expected (sequence - expected)).foldl
    (fun s missing => { s with gaps := setInsert missing s.gaps, total_gaps := s.total_gaps + 1 })
    st

/-- `SequenceGapTracker::process_sequence(sequence)`.  `expected` is the
`uint64_t` sum `last_sequence_ + 1`. -/
def process_sequence (st : State) (sequence : Nat) : State × Bool :=
  if st.first_message then
    ({ st with last_sequence := sequence, first_message := false }, true)
  else
    let expected := (st.last_sequence + 1) % 2 ^ 64
    if sequence = expected then
      ({ st with last_sequence := sequence, gaps := setErase sequence st.gaps }, true)
    else if sequence > expected then
      ({ insertRange st expected sequence with last_sequence := sequence }, false)
    else
      if sequence ∈ st.gaps then
        ({ st with gaps := setErase sequence st.gaps }, true)
      else
        (st, false)

/-- `SequenceGapTracker::get_gap_ranges()` inner loop: extends the
current `[range_start, range_end]` while values are consecutive,
emitting a range at each break and the final range at the end. -/
def rangesLoop (range_start range_end : Nat) : List Nat → List (Nat × Nat)
  | [] => [(range_start, range_end)]
  | x :: rest =>
    if x = range_end + 1 then rangesLoop range_start x rest
    else (range_start, range_end) :: rangesLoop x x rest

/-- `SequenceGapTracker::get_gap_ranges()`: compresses the ordered gap
set into maximal consecutive inclusive ranges. -/
def get_gap_ranges (st : State) : List (Nat × Nat) :=
  match st.gaps with
  | [] => []
  | x :: rest => rangesLoop x x rest

/-- Feed a list of sequence numbers through the tracker. -/
def process_list (st : State) : List Nat → State
  | [] => st
  | x :: rest => process_list (process_sequence st x).1 rest

/-- The reachability invariant of the gap tracker: after a first message
`first` and further processed inputs `processed`, the gap set is exactly
the set of sequence numbers strictly between `first` and
`last_sequence_` that were never received, held in strictly increasing
order, and `last_sequence_` is the largest value received. -/
def Inv (first : Nat) (processed : List Nat) (st : State) : Prop :=
  st.first_message = false ∧
  List.Pairwise (· < ·) st.gaps ∧
  st.last_sequence ∈ first :: processed ∧
  (∀ r ∈ first :: processed, r ≤ st.last_sequence) ∧
  ∀ x : Nat, x ∈ st.gaps ↔ first < x ∧ x < st.last_sequence ∧ x ∉ first :: processed

end GapTracker

/-! ## Connection state machine (`include/connection_manager.hpp`)

The socket system call of `create_and_connect()` is the sole external
input: its return value `fd` (nonnegative on success, `-1` on failure) is
passed as a parameter to `connect` / `reconnect`. -/

namespace ConnMgr

inductive St where
  | disconnected
  | connecting
  | connected
  | snapshotRequest
  | snapshotReplay
  | incremental
  | reconnecting
  deriving DecidableEq, Repr

structure M where
  state : St
  sockfd : Int
  reconnect_attempts : Nat
  current_backoff : Nat
  max_backoff : Nat
  snapshot_requested : Bool
  deriving DecidableEq, Repr

/-- Constructor state: `DISCONNECTED`, no socket, backoff 1 s. -/
def mk0 (max_backoff : Nat) : M :=
  { state := .disconnected, sockfd := -1, reconnect_attempts := 0
    current_backoff := 1, max_backoff := max_backoff, snapshot_requested := false }

/-- `ConnectionManagerV2::connect()`: a no-op returning `true` in
`CONNECTED` and `INCREMENTAL`; otherwise moves through `CONNECTING` and,
depending on the `fd` returned by `create_and_connect()`, lands in
`CONNECTED` (resetting attempts, backoff, and the snapshot flag) or
`DISCONNECTED`. -/
def connect (fd : Int) (m : M) : M :=
  if m.state = .connected ∨ m.state = .incremental then m
  else if fd ≥ 0 then
    { m with state := .connected, sockfd := fd, reconnect_attempts := 0
             current_backoff := 1, snapshot_requested := false }
  else
    { m with state := .disconnected, sockfd := -1 }

/-- `ConnectionManagerV2::disconnect()`: closes the socket; leaves the
state at `RECONNECTING` if mid-reconnect, else `DISCONNECTED`. -/
def disconnect (m : M) : M :=
  let m1 := if m.sockfd ≥ 0 then { m with sockfd := -1 } else m
  if m1.state ≠ .reconnecting then { m1 with state := .disconnected } else m1

/-- `ConnectionManagerV2::reconnect()`: disconnect, bump the attempt
counter, enter `RECONNECTING`, sleep, double the backoff up to the cap,
then `connect()`. -/
def reconnect (fd : Int) (m : M) : M :=
  let m1 := disconnect m
  let m2 := { m1 with reconnect_attempts := m1.reconnect_attempts + 1, state := .reconnecting }
  let m3 := { m2 with current_backoff := min (m2.current_backoff * 2) m2.max_backoff }
  connect fd m3

/-- `transition_to_snapshot_request`: only from `CONNECTED`. -/
def transition_to_snapshot_request (m : M) : M :=
  if m.state = .connected then
    { m with state := .snapshotRequest, snapshot_requested := false }
  else m

/-- `mark_snapshot_requested`: sets the flag (in any state). -/
def mark_snapshot_requested (m : M) : M :=
  { m with snapshot_requested := true }

/-- `transition_to_snapshot_replay`: only from `SNAPSHOT_REQUEST`. -/
def transition_to_snapshot_replay (m : M) : M :=
  if m.state = .snapshotRequest then { m with state := .snapshotReplay } else m

/-- `transition_to_incremental`: only from `SNAPSHOT_REPLAY`. -/
def transition_to_incremental (m : M) : M :=
  if m.state = .snapshotReplay then { m with state := .incremental } else m

end ConnMgr

/-! ## TCP frame processing (`src/feed_handler_snapshot.cpp`,
`SnapshotFeedHandler::process_messages`)

The loop peeks a 13-byte header from the reassembly buffer, waits until
`HEADER_SIZE + header.length` bytes are available, extracts the frame,
and dispatches on `header.type`; the `default` branch of the `switch`
logs the unknown type and the loop continues with the next frame.  The
buffer is represented by its readable contents (justified by the
ring-buffer contents theorem); the result is the list of
`(header, payload)` frames extracted and dispatched, in order. -/

def process_messages (buf : List Nat) : List (MessageHeader × List Nat) :=
  if h : buf.length < HEADER_SIZE then []
  else
    let header := deserialize_header (buf.take HEADER_SIZE)
    if h2 : buf.length < HEADER_SIZE + header.length then []
    else
      (header, (buf.drop HEADER_SIZE).take header.length) ::
        process_messages (buf.drop (HEADER_SIZE + header.length))
termination_by buf.length
decreasing_by
  simp only [List.length_drop, HEADER_SIZE] at *
  omega

/-! ## Theorems -/

/-! ### Byte-string lemmas -/

theorem toBytesBE_length (w v : Nat) : (toBytesBE w v).length = w := by
  induction w generalizing v with
  | zero => rfl
  | succ w ih => simp [toBytesBE, ih]

theorem foldl_toBytesBE (w v acc : Nat) :
    (toBytesBE w v).foldl (fun a b => a * 256 + b) acc = acc * 256 ^ w + v % 256 ^ w := by
  induction w generalizing v acc with
  | zero => simp [toBytesBE, Nat.mod_one]
  | succ w ih =>
    rw [toBytesBE, List.foldl_append, ih]
    simp only [List.foldl]
    have hmod : v % (256 ^ (w + 1)) = v % 256 + 256 * (v / 256 % 256 ^ w) := by
      rw [pow_succ, mul_comm (256 ^ w) 256, Nat.mod_mul]
    rw [hmod, pow_succ]
    ring

theorem fromBytesBE_toBytesBE (w v : Nat) (h : v < 256 ^ w) :
    fromBytesBE (toBytesBE w v) = v := by
  unfold fromBytesBE
  rw [foldl_toBytesBE, Nat.zero_mul, Nat.zero_add, Nat.mod_eq_of_lt h]

theorem pow256_4 : (256 : Nat) ^ 4 = 2 ^ 32 := by norm_num

theorem pow256_8 : (256 : Nat) ^ 8 = 2 ^ 64 := by norm_num

/-! ### Codec (claims C1 and C7) -/

theorem serialize_header_length (type seq len : Nat) :
    (serialize_header type seq len).length = 13 := by
  simp [serialize_header, toBytesBE_length]

theorem deserialize_serialize_header (type seq len : Nat) (rest : List Nat)
    (ht : type < 256) (hlen : len < 2 ^ 32) (hseq : seq < 2 ^ 64) :
    deserialize_header (serialize_header type seq len ++ rest) =
      ⟨len, type, seq⟩ := by
  have h4 : (toBytesBE 4 len).length = 4 := toBytesBE_length 4 len
  have h5 : (toBytesBE 4 len ++ [type % 256]).length = 5 := by
    simp [toBytesBE_length]
  have h8 : (toBytesBE 8 seq).length = 8 := toBytesBE_length 8 seq
  have e1 : serialize_header type seq len ++ rest =
      toBytesBE 4 len ++ (type % 256 :: (toBytesBE 8 seq ++ rest)) := by
    simp [serialize_header]
  have e2 : serialize_header type seq len ++ rest =
      (toBytesBE 4 len ++ [type % 256]) ++ (toBytesBE 8 seq ++ rest) := by
    simp [serialize_header]
  have htake4 : (serialize_header type seq len ++ rest).take 4 = toBytesBE 4 len := by
    rw [e1, List.take_left' h4]
  have hdrop4 :
      (serialize_header type seq len ++ rest).drop 4 =
        type % 256 :: (toBytesBE 8 seq ++ rest) := by
    rw [e1, List.drop_left' h4]
  have hdrop5 :
      (serialize_header type seq len ++ rest).drop 5 = toBytesBE 8 seq ++ rest := by
    rw [e2, List.drop_left' h5]
  unfold deserialize_header
  rw [htake4, hdrop4, hdrop5, List.take_left' h8]
  simp only [List.headD_cons]
  rw [fromBytesBE_toBytesBE 4 len (by rw [pow256_4]; exact hlen),
    fromBytesBE_toBytesBE 8 seq (by rw [pow256_8]; exact hseq),
    Nat.mod_eq_of_lt ht]

theorem serialize_tick_split (seq ts priceBits volumeBits : Nat) (symbol : List Nat) :
    ((serialize_tick seq ts symbol priceBits volumeBits).take 13 =
        serialize_header TICK seq TICK_PAYLOAD_SIZE) ∧
      (serialize_tick seq ts symbol priceBits volumeBits).drop 13 =
        toBytesBE 8 ts ++ symbol ++ toBytesBE 4 priceBits ++ toBytesBE 4 volumeBits := by
  have h13 : (serialize_header TICK seq TICK_PAYLOAD_SIZE).length = 13 :=
    serialize_header_length _ _ _
  unfold serialize_tick
  constructor
  · rw [List.append_assoc, List.append_assoc, List.append_assoc, List.take_left' h13]
  · rw [List.append_assoc, List.append_assoc, List.append_assoc, List.drop_left' h13,
      ← List.append_assoc, ← List.append_assoc]

theorem deserialize_serialize_tick_payload (ts priceBits volumeBits : Nat)
    (symbol : List Nat) (hts : ts < 2 ^ 64) (hsym : symbol.length = 4)
    (hp : priceBits < 2 ^ 32) (hv : volumeBits < 2 ^ 32) :
    deserialize_tick_payload
        (toBytesBE 8 ts ++ symbol ++ toBytesBE 4 priceBits ++ toBytesBE 4 volumeBits) =
      ⟨ts, symbol, priceBits, volumeBits⟩ := by
  have h8 : (toBytesBE 8 ts).length = 8 := toBytesBE_length 8 ts
  have hp4 : (toBytesBE 4 priceBits).length = 4 := toBytesBE_length 4 priceBits
  have h12 : (toBytesBE 8 ts ++ symbol).length = 12 := by
    simp [toBytesBE_length, hsym]
  have h16 : (toBytesBE 8 ts ++ symbol ++ toBytesBE 4 priceBits).length = 16 := by
    simp [toBytesBE_length, hsym]
  have e8 : toBytesBE 8 ts ++ symbol ++ toBytesBE 4 priceBits ++ toBytesBE 4 volumeBits =
      toBytesBE 8 ts ++ (symbol ++ (toBytesBE 4 priceBits ++ toBytesBE 4 volumeBits)) := by
    simp [List.append_assoc]
  have e12 : toBytesBE 8 ts ++ symbol ++ toBytesBE 4 priceBits ++ toBytesBE 4 volumeBits =
      (toBytesBE 8 ts ++ symbol) ++ (toBytesBE 4 priceBits ++ toBytesBE 4 volumeBits) := by
    simp [List.append_assoc]
  have hdrop8 :
      (toBytesBE 8 ts ++ symbol ++ toBytesBE 4 priceBits ++ toBytesBE 4 volumeBits).drop 8 =
        symbol ++ (toBytesBE 4 priceBits ++ toBytesBE 4 volumeBits) := by
    rw [e8, List.drop_left' h8]
  have hdrop12 :
      (toBytesBE 8 ts ++ symbol ++ toBytesBE 4 priceBits ++ toBytesBE 4 volumeBits).drop 12 =
        toBytesBE 4 priceBits ++ toBytesBE 4 volumeBits := by
    rw [e12, List.drop_left' h12]
  have hdrop16 :
      (toBytesBE 8 ts ++ symbol ++ toBytesBE 4 priceBits ++ toBytesBE 4 volumeBits).drop 16 =
        toBytesBE 4 volumeBits := by
    rw [show toBytesBE 8 ts ++ symbol ++ toBytesBE 4 priceBits ++ toBytesBE 4 volumeBits =
      (toBytesBE 8 ts ++ symbol ++ toBytesBE 4 priceBits) ++ toBytesBE 4 volumeBits from rfl,
      List.drop_left' h16]
  have htake8 :
      (toBytesBE 8 ts ++ symbol ++ toBytesBE 4 priceBits ++ toBytesBE 4 volumeBits).take 8 =
        toBytesBE 8 ts := by
    rw [e8, List.take_left' h8]
  unfold deserialize_tick_payload
  rw [htake8, hdrop8, hdrop12, hdrop16]
  rw [List.take_left' hsym, List.take_left' hp4,
    List.take_of_length_le (by simp [toBytesBE_length])]
  rw [fromBytesBE_toBytesBE 8 ts (by rw [pow256_8]; exact hts),
    fromBytesBE_toBytesBE 4 priceBits (by rw [pow256_4]; exact hp),
    fromBytesBE_toBytesBE 4 volumeBits (by rw [pow256_4]; exact hv)]

/-- Claim C1: codec round-trip.  For every sequence number, timestamp,
4-byte symbol, 32-bit price pattern and 32-bit volume pattern, decoding
the bytes produced by `serialize_tick` recovers the original message:
`deserialize_header` on the first 13 bytes yields type `TICK`, length 20
and the original sequence, and `deserialize_tick_payload` on the
remaining 20 bytes yields the original timestamp, symbol, price pattern
and volume; the analogous round-trip holds for `serialize_heartbeat` /
`deserialize_heartbeat_payload`. -/
theorem C1_codec_round_trip (seq ts priceBits volumeBits : Nat) (symbol : List Nat)
    (hseq : seq < 2 ^ 64) (hts : ts < 2 ^ 64) (hsym : symbol.length = 4)
    (hp : priceBits < 2 ^ 32) (hv : volumeBits < 2 ^ 32) :
    (deserialize_header ((serialize_tick seq ts symbol priceBits volumeBits).take 13) =
        ⟨TICK_PAYLOAD_SIZE, TICK, seq⟩ ∧
      deserialize_tick_payload ((serialize_tick seq ts symbol priceBits volumeBits).drop 13) =
        ⟨ts, symbol, priceBits, volumeBits⟩) ∧
    (deserialize_header ((serialize_heartbeat seq ts).take 13) =
        ⟨HEARTBEAT_PAYLOAD_SIZE, HEARTBEAT, seq⟩ ∧
      deserialize_heartbeat_payload ((serialize_heartbeat seq ts).drop 13) = ⟨ts⟩) := by
  obtain ⟨htake, hdrop⟩ := serialize_tick_split seq ts priceBits volumeBits symbol
  have hhb13 : (serialize_header HEARTBEAT seq HEARTBEAT_PAYLOAD_SIZE).length = 13 :=
    serialize_header_length _ _ _
  refine ⟨⟨?_, ?_⟩, ?_, ?_⟩
  · rw [htake, show serialize_header TICK seq TICK_PAYLOAD_SIZE =
      serialize_header TICK seq TICK_PAYLOAD_SIZE ++ [] by simp]
    exact deserialize_serialize_header _ _ _ _ (by norm_num [TICK])
      (by norm_num [TICK_PAYLOAD_SIZE]) hseq
  · rw [hdrop]
    exact deserialize_serialize_tick_payload ts priceBits volumeBits symbol hts hsym hp hv
  · rw [serialize_heartbeat, List.take_left' hhb13,
      show serialize_header HEARTBEAT seq HEARTBEAT_PAYLOAD_SIZE =
        serialize_header HEARTBEAT seq HEARTBEAT_PAYLOAD_SIZE ++ [] by simp]
    exact deserialize_serialize_header _ _ _ _ (by norm_num [HEARTBEAT])
      (by norm_num [HEARTBEAT_PAYLOAD_SIZE]) hseq
  · rw [serialize_heartbeat, List.drop_left' hhb13]
    unfold deserialize_heartbeat_payload
    rw [List.take_of_length_le (by simp [toBytesBE_length]),
      fromBytesBE_toBytesBE 8 ts (by rw [pow256_8]; exact hts)]

/-- Witness for C1 at a concrete message. -/
theorem C1_codec_round_trip_witness :
    (deserialize_header ((serialize_tick 7 1234 [65, 65, 80, 76] 1078530011 100).take 13) =
        ⟨TICK_PAYLOAD_SIZE, TICK, 7⟩ ∧
      deserialize_tick_payload ((serialize_tick 7 1234 [65, 65, 80, 76] 1078530011 100).drop 13) =
        ⟨1234, [65, 65, 80, 76], 1078530011, 100⟩) ∧
    (deserialize_header ((serialize_heartbeat 7 1234).take 13) =
        ⟨HEARTBEAT_PAYLOAD_SIZE, HEARTBEAT, 7⟩ ∧
      deserialize_heartbeat_payload ((serialize_heartbeat 7 1234).drop 13) = ⟨1234⟩) :=
  C1_codec_round_trip 7 1234 1078530011 100 [65, 65, 80, 76] (by norm_num) (by norm_num)
    (by norm_num) (by norm_num) (by norm_num)

/-- Counterexample to claim C7 as stated: `deserialize_header` applied to
an input of fewer than 13 bytes (here the empty input) does not fail —
there is no error path in the function — it returns a header. -/
theorem C7_counterexample : deserialize_header [] = ⟨0, 0, 0⟩ := rfl

/-- Claim C7 (amended): `deserialize_header` never fails; it is a total
function of the first 13 bytes of its input (reading absent bytes as
zero), and the 13-byte precondition is enforced by its callers, which
check `available() ≥ HEADER_SIZE` before decoding. -/
theorem C7_header_decode_total (data : List Nat) :
    deserialize_header data = deserialize_header (data.take 13) := by
  unfold deserialize_header
  have h1 : (data.take 13).take 4 = data.take 4 := by
    rw [List.take_take]
    congr 1
  have h2 : ((data.take 13).drop 4).headD 0 = (data.drop 4).headD 0 := by
    rw [List.drop_take]
    cases data.drop 4 <;> rfl
  have h3 : ((data.take 13).drop 5).take 8 = (data.drop 5).take 8 := by
    rw [List.drop_take, List.take_take]
    congr 1
  rw [h1, h2, h3]

/-- Witness for C7's amended theorem (hypothesis-free, applied at a
concrete short input). -/
theorem C7_header_decode_total_witness :
    deserialize_header [0, 0, 0, 20, 1] = deserialize_header ([0, 0, 0, 20, 1].take 13) :=
  C7_header_decode_total [0, 0, 0, 20, 1]

/-! ### Sequence tracker (claims C2 and C9) -/

namespace SeqTracker

theorem process_sequence_ne_sentinel (st : State) (x : Nat)
    (hst : st.last_sequence ≠ UINT64_MAX) (hx : x < UINT64_MAX) :
    (process_sequence st x).1.last_sequence ≠ UINT64_MAX := by
  unfold process_sequence
  rw [if_neg hst]
  dsimp only
  split
  · exact Nat.ne_of_lt hx
  · split
    · exact Nat.ne_of_lt hx
    · exact hst

theorem process_list_ne_sentinel (l : List Nat) (st : State)
    (hst : st.last_sequence ≠ UINT64_MAX) (hl : ∀ x ∈ l, x < UINT64_MAX) :
    (process_list st l).1.last_sequence ≠ UINT64_MAX := by
  induction l generalizing st with
  | nil => exact hst
  | cons x rest ih =>
    simp only [process_list]
    exact ih _ (process_sequence_ne_sentinel st x hst (hl x (by simp)))
      fun y hy => hl y (by simp [hy])

theorem process_sequence_mono (st : State) (x : Nat)
    (hst : st.last_sequence ≠ UINT64_MAX) (hlt : st.last_sequence < 2 ^ 64) :
    st.last_sequence ≤ (process_sequence st x).1.last_sequence := by
  have hexp : (st.last_sequence + 1) % 2 ^ 64 = st.last_sequence + 1 :=
    Nat.mod_eq_of_lt (by unfold UINT64_MAX at hst; omega)
  unfold process_sequence
  rw [if_neg hst]
  dsimp only
  rw [hexp]
  split
  · rename_i heq
    show st.last_sequence ≤ x
    omega
  · split
    · rename_i hgt
      show st.last_sequence ≤ x
      omega
    · exact Nat.le_refl _

theorem process_sequence_lt (st : State) (x : Nat)
    (hst : st.last_sequence ≠ UINT64_MAX) (hlt : st.last_sequence < 2 ^ 64)
    (hx : x < 2 ^ 64) :
    (process_sequence st x).1.last_sequence < 2 ^ 64 := by
  unfold process_sequence
  rw [if_neg hst]
  dsimp only
  split
  · exact hx
  · split
    · exact hx
    · exact hlt

theorem process_list_mono (l : List Nat) (st : State)
    (hst : st.last_sequence ≠ UINT64_MAX) (hlt : st.last_sequence < 2 ^ 64)
    (hl : ∀ x ∈ l, x < UINT64_MAX) :
    st.last_sequence ≤ (process_list st l).1.last_sequence := by
  induction l generalizing st with
  | nil => exact Nat.le_refl _
  | cons x rest ih =>
    simp only [process_list]
    have hx : x < UINT64_MAX := hl x (by simp)
    refine Nat.le_trans (process_sequence_mono st x hst hlt) (ih _ ?_ ?_ ?_)
    · exact process_sequence_ne_sentinel st x hst hx
    · exact process_sequence_lt st x hst hlt (by unfold UINT64_MAX at hx; omega)
    · exact fun y hy => hl y (by simp [hy])

end SeqTracker

/-- Claim C2: sequence-tracker classification.  For a tracker whose last
observed sequence is `s` (some message already processed, hence the
stored value is not the sentinel and is a `uint64_t` value):
`seq = s + 1` is in-order (`process_sequence` returns `true`) and sets
`last_seq = seq`; `seq > s + 1` is a gap (returns `false`), increments
the gap counter by exactly one and sets `last_seq = seq`; `seq ≤ s` is
duplicate/out-of-order (returns `false`) and leaves the whole state
unchanged.  Inputs `1,2,3,7` from a fresh tracker yield
`first, inOrder, inOrder, gap` (`true, true, true, false`) with
`gaps_detected = 1` and `last_seq = 7`.  Consequently `last_seq` never
decreases across any further inputs (no `reset()`). -/
theorem C2_sequence_tracker_classification (st : SeqTracker.State) (seq : Nat)
    (seqs : List Nat) (hst : st.last_sequence ≠ SeqTracker.UINT64_MAX)
    (hlt : st.last_sequence < 2 ^ 64) (hseq : seq < 2 ^ 64)
    (hseqs : ∀ x ∈ seqs, x < SeqTracker.UINT64_MAX) :
    (seq = st.last_sequence + 1 →
      SeqTracker.process_sequence st seq = ({ st with last_sequence := seq }, true)) ∧
    (seq > st.last_sequence + 1 →
      SeqTracker.process_sequence st seq =
        (⟨seq, st.gaps_detected + 1⟩, false)) ∧
    (seq ≤ st.last_sequence → SeqTracker.process_sequence st seq = (st, false)) ∧
    SeqTracker.process_list SeqTracker.init [1, 2, 3, 7] =
      (⟨7, 1⟩, [true, true, true, false]) ∧
    st.last_sequence ≤ (SeqTracker.process_list st seqs).1.last_sequence := by
  have hexp : (st.last_sequence + 1) % 2 ^ 64 = st.last_sequence + 1 :=
    Nat.mod_eq_of_lt (by unfold SeqTracker.UINT64_MAX at hst; omega)
  refine ⟨?_, ?_, ?_, by decide, SeqTracker.process_list_mono seqs st hst hlt hseqs⟩
  · intro h
    unfold SeqTracker.process_sequence
    rw [if_neg hst]
    dsimp only
    rw [hexp, if_pos h]
  · intro h
    unfold SeqTracker.process_sequence
    rw [if_neg hst]
    dsimp only
    rw [hexp, if_neg (by omega), if_pos h]
  · intro h
    unfold SeqTracker.process_sequence
    rw [if_neg hst]
    dsimp only
    rw [hexp, if_neg (by omega), if_neg (by omega)]

/-- Witness for C2 at a concrete tracker state and inputs. -/
theorem C2_sequence_tracker_classification_witness :
    ((4 : Nat) = 3 + 1 →
      SeqTracker.process_sequence ⟨3, 0⟩ 4 = (⟨4, 0⟩, true)) ∧
    ((4 : Nat) > 3 + 1 →
      SeqTracker.process_sequence ⟨3, 0⟩ 4 = (⟨4, 1⟩, false)) ∧
    ((4 : Nat) ≤ 3 → SeqTracker.process_sequence ⟨3, 0⟩ 4 = (⟨3, 0⟩, false)) ∧
    SeqTracker.process_list SeqTracker.init [1, 2, 3, 7] =
      (⟨7, 1⟩, [true, true, true, false]) ∧
    (3 : Nat) ≤ (SeqTracker.process_list ⟨3, 0⟩ [9, 5, 12]).1.last_sequence :=
  C2_sequence_tracker_classification ⟨3, 0⟩ 4 [9, 5, 12] (by decide) (by decide)
    (by decide) (by decide)

/-- Counterexample to claim C9 as stated: a first message with sequence
`2^64 - 1` collides with the internal sentinel — after processing it the
tracker reports `has_received_message() = false` and
`last_sequence() = none`, although a message has been processed. -/
theorem C9_counterexample :
    (SeqTracker.process_sequence SeqTracker.init (2 ^ 64 - 1)).2 = true ∧
    SeqTracker.has_received_message
        (SeqTracker.process_sequence SeqTracker.init (2 ^ 64 - 1)).1 = false ∧
    SeqTracker.last_sequenceOpt
        (SeqTracker.process_sequence SeqTracker.init (2 ^ 64 - 1)).1 = none := by
  refine ⟨?_, ?_, ?_⟩ <;> decide

/-- Claim C9 (amended): for every input history whose sequence numbers
are below `2^64 - 1`, `last_sequence()` returns `none` exactly when no
message has been processed since construction, and
`has_received_message()` returns `true` exactly when at least one message
has been processed; `reset()` restores the no-message observation.  The
sentinel is observable only at the boundary value `2^64 - 1`. -/
theorem C9_sentinel_not_exposed (l : List Nat) (st : SeqTracker.State)
    (hl : ∀ x ∈ l, x < SeqTracker.UINT64_MAX) :
    (SeqTracker.has_received_message (SeqTracker.process_list SeqTracker.init l).1 =
      true ↔ l ≠ []) ∧
    (SeqTracker.last_sequenceOpt (SeqTracker.process_list SeqTracker.init l).1 =
      none ↔ l = []) ∧
    SeqTracker.last_sequenceOpt (SeqTracker.reset st) = none ∧
    SeqTracker.has_received_message (SeqTracker.reset st) = false := by
  have main : l ≠ [] →
      (SeqTracker.process_list SeqTracker.init l).1.last_sequence ≠
        SeqTracker.UINT64_MAX := by
    intro hne
    match l, hne with
    | x :: rest, _ =>
      simp only [SeqTracker.process_list]
      refine SeqTracker.process_list_ne_sentinel rest _ ?_ fun y hy => hl y (by simp [hy])
      have hx : x < SeqTracker.UINT64_MAX := hl x (by simp)
      have hfirst : (SeqTracker.process_sequence SeqTracker.init x).1.last_sequence = x := by
        unfold SeqTracker.process_sequence SeqTracker.init
        simp
      rw [hfirst]
      exact Nat.ne_of_lt hx
  refine ⟨?_, ?_, ?_, ?_⟩
  · constructor
    · intro h hnil
      subst hnil
      simp [SeqTracker.process_list, SeqTracker.init, SeqTracker.has_received_message] at h
    · intro hne
      simp [SeqTracker.has_received_message, main hne]
  · constructor
    · intro h
      by_contra hne
      have := main hne
      simp [SeqTracker.last_sequenceOpt, this] at h
    · intro hnil
      subst hnil
      simp [SeqTracker.process_list, SeqTracker.init, SeqTracker.last_sequenceOpt]
  · simp [SeqTracker.last_sequenceOpt, SeqTracker.reset]
  · simp [SeqTracker.has_received_message, SeqTracker.reset]

/-- Witness for C9's amended theorem at a concrete history. -/
theorem C9_sentinel_not_exposed_witness :
    (SeqTracker.has_received_message
        (SeqTracker.process_list SeqTracker.init [5, 6]).1 = true ↔ ([5, 6] : List Nat) ≠ []) ∧
    (SeqTracker.last_sequenceOpt
        (SeqTracker.process_list SeqTracker.init [5, 6]).1 = none ↔ ([5, 6] : List Nat) = []) ∧
    SeqTracker.last_sequenceOpt (SeqTracker.reset ⟨3, 2⟩) = none ∧
    SeqTracker.has_received_message (SeqTracker.reset ⟨3, 2⟩) = false :=
  C9_sentinel_not_exposed [5, 6] ⟨3, 2⟩ (by decide)

/-! ### Order book (claims C3 and C10) -/

namespace OrderBook

theorem mem_insertLevel_weak (p : Price) (q : Nat) (m : List (Price × Nat))
    (x : Price × Nat) (hx : x ∈ insertLevel p q m) : x = (p, q) ∨ x ∈ m := by
  induction m with
  | nil => simpa [insertLevel] using hx
  | cons hd tl ih =>
    unfold insertLevel at hx
    split_ifs at hx with h1 h2
    · rw [List.mem_cons] at hx
      rcases hx with h | h
      · exact Or.inl h
      · exact Or.inr h
    · rw [List.mem_cons] at hx
      rcases hx with h | h
      · exact Or.inl h
      · exact Or.inr (List.mem_cons_of_mem _ h)
    · rw [List.mem_cons] at hx
      rcases hx with h | h
      · exact Or.inr (by rw [h]; exact List.mem_cons_self _ _)
      · rcases ih h with h' | h'
        · exact Or.inl h'
        · exact Or.inr (List.mem_cons_of_mem _ h')

theorem sorted_insertLevel (p : Price) (q : Nat) (m : List (Price × Nat))
    (hs : SideSorted m) : SideSorted (insertLevel p q m) := by
  induction m with
  | nil => simp [insertLevel, SideSorted]
  | cons hd tl ih =>
    rw [SideSorted, List.pairwise_cons] at hs
    unfold insertLevel
    split_ifs with h1 h2
    · rw [SideSorted, List.pairwise_cons]
      refine ⟨?_, ?_⟩
      · intro y hy
        rw [List.mem_cons] at hy
        rcases hy with h | h
        · rw [h]; exact h1
        · have := hs.1 y h
          show p < y.1
          exact lt_trans h1 this
      · rw [List.pairwise_cons]
        exact hs
    · subst h2
      rw [SideSorted, List.pairwise_cons]
      exact hs
    · rw [SideSorted, List.pairwise_cons]
      refine ⟨?_, ih hs.2⟩
      intro y hy
      rcases mem_insertLevel_weak p q tl y hy with h | h
      · rw [h]
        show hd.1 < p
        exact lt_of_le_of_ne (not_lt.mp h1) (Ne.symm h2)
      · exact hs.1 y h

theorem eraseLevel_sublist (p : Price) (m : List (Price × Nat)) :
    List.Sublist (eraseLevel p m) m := by
  induction m with
  | nil => simp [eraseLevel]
  | cons hd tl ih =>
    unfold eraseLevel
    split_ifs
    · exact List.sublist_cons_self _ _
    · exact List.Sublist.cons₂ _ ih

theorem sorted_eraseLevel (p : Price) (m : List (Price × Nat))
    (hs : SideSorted m) : SideSorted (eraseLevel p m) :=
  List.Pairwise.sublist (eraseLevel_sublist p m) hs

theorem mem_eraseLevel_ne (p : Price) (m : List (Price × Nat))
    (hs : SideSorted m) (x : Price × Nat) (hx : x ∈ eraseLevel p m) : x.1 ≠ p := by
  induction m with
  | nil => simp [eraseLevel] at hx
  | cons hd tl ih =>
    rw [SideSorted, List.pairwise_cons] at hs
    unfold eraseLevel at hx
    split_ifs at hx with h1
    · subst h1
      exact ne_of_gt (hs.1 x hx)
    · rw [List.mem_cons] at hx
      rcases hx with h | h
      · rw [h]
        show hd.1 ≠ p
        exact fun hc => h1 hc.symm
      · exact ih hs.2 h

theorem applySideUpdate_inv (m : List (Price × Nat)) (p : Price) (q : Int)
    (hs : SideSorted m) (hp : SidePos m) :
    SideSorted (applySideUpdate m p q) ∧ SidePos (applySideUpdate m p q) := by
  unfold applySideUpdate
  split_ifs with h1 h2
  · exact ⟨sorted_eraseLevel p m hs, fun lv hlv =>
      hp lv ((eraseLevel_sublist p m).mem hlv)⟩
  · refine ⟨sorted_insertLevel p q.toNat m hs, fun lv hlv => ?_⟩
    rcases mem_insertLevel_weak p q.toNat m lv hlv with h | h
    · rw [h]
      show 0 < q.toNat
      omega
    · exact hp lv h
  · exact ⟨hs, hp⟩

theorem loadSide_inv (levels : List (Price × Nat)) :
    SideSorted (loadSide levels) ∧ SidePos (loadSide levels) := by
  unfold loadSide
  generalize hacc : ([] : List (Price × Nat)) = acc
  have hinv : SideSorted acc ∧ SidePos acc := by
    rw [← hacc]; exact ⟨List.Pairwise.nil, by intro lv h; simp at h⟩
  clear hacc
  induction levels generalizing acc with
  | nil => simpa using hinv
  | cons lv rest ih =>
    simp only [List.foldl_cons]
    apply ih
    split_ifs with h
    · refine ⟨sorted_insertLevel _ _ _ hinv.1, fun y hy => ?_⟩
      rcases mem_insertLevel_weak _ _ _ y hy with h' | h'
      · rw [h']; exact h
      · exact hinv.2 y h'
    · exact hinv

theorem applyOp_inv (b : Book) (op : Op) (h : BookInv b) : BookInv (applyOp b op) := by
  cases op with
  | clearOp =>
    show BookInv ⟨[], []⟩
    exact ⟨⟨List.Pairwise.nil, fun lv hlv => absurd hlv (List.not_mem_nil lv)⟩,
      ⟨List.Pairwise.nil, fun lv hlv => absurd hlv (List.not_mem_nil lv)⟩⟩
  | snapshot bids asks =>
    show BookInv (load_snapshot bids asks)
    exact ⟨loadSide_inv bids, loadSide_inv asks⟩
  | update side price quantity =>
    show BookInv (apply_update b side price quantity)
    unfold apply_update
    split_ifs with hside
    · exact ⟨applySideUpdate_inv b.bids price quantity h.1.1 h.1.2, h.2⟩
    · exact ⟨h.1, applySideUpdate_inv b.asks price quantity h.2.1 h.2.2⟩

theorem runOps_inv (ops : List Op) : BookInv (runOps ops) := by
  unfold runOps
  generalize hb : (⟨[], []⟩ : Book) = b
  have h : BookInv b := by
    rw [← hb]
    exact ⟨⟨List.Pairwise.nil, by intro lv hlv; simp at hlv⟩,
      ⟨List.Pairwise.nil, by intro lv hlv; simp at hlv⟩⟩
  clear hb
  induction ops generalizing b with
  | nil => simpa using h
  | cons op rest ih => exact ih _ (applyOp_inv b op h)

theorem getLast?_max (m : List (Price × Nat)) (hs : SideSorted m) (lv : Price × Nat)
    (h : m.getLast? = some lv) : lv ∈ m ∧ ∀ x ∈ m, x.1 ≤ lv.1 := by
  induction m with
  | nil => simp at h
  | cons hd tl ih =>
    rw [SideSorted, List.pairwise_cons] at hs
    cases tl with
    | nil =>
      simp only [List.getLast?_singleton, Option.some.injEq] at h
      subst h
      refine ⟨List.mem_cons_self _ _, ?_⟩
      intro x hx
      rw [List.mem_cons] at hx
      rcases hx with hx | hx
      · rw [hx]
      · simp at hx
    | cons b tl' =>
      rw [List.getLast?_cons_cons] at h
      obtain ⟨hmem, hmax⟩ := ih hs.2 h
      refine ⟨List.mem_cons_of_mem _ hmem, ?_⟩
      intro x hx
      rw [List.mem_cons] at hx
      rcases hx with hx | hx
      · rw [hx]
        exact le_of_lt (hs.1 lv hmem)
      · exact hmax x hx

theorem head?_min (m : List (Price × Nat)) (hs : SideSorted m) (lv : Price × Nat)
    (h : m.head? = some lv) : lv ∈ m ∧ ∀ x ∈ m, lv.1 ≤ x.1 := by
  cases m with
  | nil => simp at h
  | cons hd tl =>
    rw [SideSorted, List.pairwise_cons] at hs
    simp only [List.head?_cons, Option.some.injEq] at h
    subst h
    refine ⟨List.mem_cons_self _ _, ?_⟩
    intro x hx
    rw [List.mem_cons] at hx
    rcases hx with hx | hx
    · rw [hx]
    · exact le_of_lt (hs.1 x hx)

end OrderBook

/-- Claim C3: order-book invariants.  After any sequence of `clear`,
`load_snapshot` and `apply_update` operations: no zero-quantity level is
present on either side; `get_best_bid` yields the maximum-price bid level
and `get_best_ask` the minimum-price ask level, each absent exactly when
that side is empty; `clear()` yields an empty book; an update with
quantity 0 removes the level at that price from the addressed side; an
update with negative quantity leaves the book unchanged. -/
theorem C3_order_book_invariants (ops : List OrderBook.Op) (side : Nat)
    (p : OrderBook.Price) (q : Int) (lvb lva : OrderBook.Price × Nat)
    (hneg : q < 0) :
    ((∀ lv ∈ (OrderBook.runOps ops).bids, 0 < lv.2) ∧
      ∀ lv ∈ (OrderBook.runOps ops).asks, 0 < lv.2) ∧
    ((OrderBook.get_best_bid (OrderBook.runOps ops) = none ↔
        (OrderBook.runOps ops).bids = []) ∧
      (OrderBook.get_best_ask (OrderBook.runOps ops) = none ↔
        (OrderBook.runOps ops).asks = [])) ∧
    (OrderBook.get_best_bid (OrderBook.runOps ops) = some lvb →
      lvb ∈ (OrderBook.runOps ops).bids ∧
        ∀ x ∈ (OrderBook.runOps ops).bids, x.1 ≤ lvb.1) ∧
    (OrderBook.get_best_ask (OrderBook.runOps ops) = some lva →
      lva ∈ (OrderBook.runOps ops).asks ∧
        ∀ x ∈ (OrderBook.runOps ops).asks, lva.1 ≤ x.1) ∧
    OrderBook.emptyBook (OrderBook.clear (OrderBook.runOps ops)) = true ∧
    (side = 0 →
      ∀ x ∈ (OrderBook.apply_update (OrderBook.runOps ops) side p 0).bids, x.1 ≠ p) ∧
    (side ≠ 0 →
      ∀ x ∈ (OrderBook.apply_update (OrderBook.runOps ops) side p 0).asks, x.1 ≠ p) ∧
    OrderBook.apply_update (OrderBook.runOps ops) side p q = OrderBook.runOps ops := by
  obtain ⟨⟨hbs, hbp⟩, has, hap⟩ := OrderBook.runOps_inv ops
  refine ⟨⟨hbp, hap⟩, ⟨?_, ?_⟩, ?_, ?_, by rfl, ?_, ?_, ?_⟩
  · unfold OrderBook.get_best_bid
    rw [List.getLast?_eq_none_iff]
  · unfold OrderBook.get_best_ask
    cases (OrderBook.runOps ops).asks <;> simp
  · exact fun h => OrderBook.getLast?_max _ hbs lvb h
  · exact fun h => OrderBook.head?_min _ has lva h
  · intro hside x hx
    subst hside
    unfold OrderBook.apply_update at hx
    rw [if_pos rfl] at hx
    simp only at hx
    unfold OrderBook.applySideUpdate at hx
    rw [if_pos rfl] at hx
    exact OrderBook.mem_eraseLevel_ne p _ hbs x hx
  · intro hside x hx
    unfold OrderBook.apply_update at hx
    rw [if_neg hside] at hx
    simp only at hx
    unfold OrderBook.applySideUpdate at hx
    rw [if_pos rfl] at hx
    exact OrderBook.mem_eraseLevel_ne p _ has x hx
  · unfold OrderBook.apply_update OrderBook.applySideUpdate
    have h0 : ¬ q = 0 := by omega
    have h1 : ¬ q > 0 := by omega
    rw [if_neg h0, if_neg h1]
    split_ifs <;> rfl

/-- Witness for C3 at a concrete operation sequence (the S1 scenario:
snapshot with two bids and one ask, then a delete of the best bid). -/
theorem C3_order_book_invariants_witness :
    ((∀ lv ∈ (OrderBook.runOps
        [OrderBook.Op.snapshot [(10050, 1000), (10025, 2000)] [(10075, 800)],
         OrderBook.Op.update 0 10050 0]).bids, 0 < lv.2) ∧
      ∀ lv ∈ (OrderBook.runOps
        [OrderBook.Op.snapshot [(10050, 1000), (10025, 2000)] [(10075, 800)],
         OrderBook.Op.update 0 10050 0]).asks, 0 < lv.2) ∧
    ((OrderBook.get_best_bid (OrderBook.runOps
        [OrderBook.Op.snapshot [(10050, 1000), (10025, 2000)] [(10075, 800)],
         OrderBook.Op.update 0 10050 0]) = none ↔
        (OrderBook.runOps
        [OrderBook.Op.snapshot [(10050, 1000), (10025, 2000)] [(10075, 800)],
         OrderBook.Op.update 0 10050 0]).bids = []) ∧
      (OrderBook.get_best_ask (OrderBook.runOps
        [OrderBook.Op.snapshot [(10050, 1000), (10025, 2000)] [(10075, 800)],
         OrderBook.Op.update 0 10050 0]) = none ↔
        (OrderBook.runOps
        [OrderBook.Op.snapshot [(10050, 1000), (10025, 2000)] [(10075, 800)],
         OrderBook.Op.update 0 10050 0]).asks = [])) ∧
    (OrderBook.get_best_bid (OrderBook.runOps
        [OrderBook.Op.snapshot [(10050, 1000), (10025, 2000)] [(10075, 800)],
         OrderBook.Op.update 0 10050 0]) = some (10025, 2000) →
      (10025, 2000) ∈ (OrderBook.runOps
        [OrderBook.Op.snapshot [(10050, 1000), (10025, 2000)] [(10075, 800)],
         OrderBook.Op.update 0 10050 0]).bids ∧
        ∀ x ∈ (OrderBook.runOps
        [OrderBook.Op.snapshot [(10050, 1000), (10025, 2000)] [(10075, 800)],
         OrderBook.Op.update 0 10050 0]).bids, x.1 ≤ (10025, 2000).1) ∧
    (OrderBook.get_best_ask (OrderBook.runOps
        [OrderBook.Op.snapshot [(10050, 1000), (10025, 2000)] [(10075, 800)],
         OrderBook.Op.update 0 10050 0]) = some (10075, 800) →
      (10075, 800) ∈ (OrderBook.runOps
        [OrderBook.Op.snapshot [(10050, 1000), (10025, 2000)] [(10075, 800)],
         OrderBook.Op.update 0 10050 0]).asks ∧
        ∀ x ∈ (OrderBook.runOps
        [OrderBook.Op.snapshot [(10050, 1000), (10025, 2000)] [(10075, 800)],
         OrderBook.Op.update 0 10050 0]).asks, (10075, 800).1 ≤ x.1) ∧
    OrderBook.emptyBook (OrderBook.clear (OrderBook.runOps
        [OrderBook.Op.snapshot [(10050, 1000), (10025, 2000)] [(10075, 800)],
         OrderBook.Op.update 0 10050 0])) = true ∧
    ((1 : Nat) = 0 →
      ∀ x ∈ (OrderBook.apply_update (OrderBook.runOps
        [OrderBook.Op.snapshot [(10050, 1000), (10025, 2000)] [(10075, 800)],
         OrderBook.Op.update 0 10050 0]) 1 10075 0).bids, x.1 ≠ 10075) ∧
    ((1 : Nat) ≠ 0 →
      ∀ x ∈ (OrderBook.apply_update (OrderBook.runOps
        [OrderBook.Op.snapshot [(10050, 1000), (10025, 2000)] [(10075, 800)],
         OrderBook.Op.update 0 10050 0]) 1 10075 0).asks, x.1 ≠ 10075) ∧
    OrderBook.apply_update (OrderBook.runOps
        [OrderBook.Op.snapshot [(10050, 1000), (10025, 2000)] [(10075, 800)],
         OrderBook.Op.update 0 10050 0]) 1 10075 (-5) =
      OrderBook.runOps
        [OrderBook.Op.snapshot [(10050, 1000), (10025, 2000)] [(10075, 800)],
         OrderBook.Op.update 0 10050 0] :=
  C3_order_book_invariants
    [OrderBook.Op.snapshot [(10050, 1000), (10025, 2000)] [(10075, 800)],
     OrderBook.Op.update 0 10050 0] 1 10075 (-5) (10025, 2000) (10075, 800) (by decide)

/-- Claim C10 (implicit): side routing in `apply_update`.  The side byte
is compared only against 0: for every side value other than 0 (not only
1), the update is applied to the ask side and the bid side is left
unchanged. -/
theorem C10_side_routing (b : OrderBook.Book) (side : Nat) (p : OrderBook.Price)
    (q : Int) (h : side ≠ 0) :
    OrderBook.apply_update b side p q =
      { b with asks := OrderBook.applySideUpdate b.asks p q } ∧
    (OrderBook.apply_update b side p q).bids = b.bids := by
  unfold OrderBook.apply_update
  rw [if_neg h]
  exact ⟨rfl, rfl⟩

/-- Witness for C10 at side byte 7 (an out-of-contract value). -/
theorem C10_side_routing_witness :
    OrderBook.apply_update ⟨[(5, 2)], []⟩ 7 9 4 =
      { OrderBook.Book.mk [(5, 2)] [] with
        asks := OrderBook.applySideUpdate [] 9 4 } ∧
    (OrderBook.apply_update ⟨[(5, 2)], []⟩ 7 9 4).bids = [(5, 2)] :=
  C10_side_routing ⟨[(5, 2)], []⟩ 7 9 4 (by decide)

/-! ### UDP gap tracker (claim C5) -/

namespace GapTracker

theorem mem_setInsert (x : Nat) (l : List Nat) (a : Nat) :
    a ∈ setInsert x l ↔ a = x ∨ a ∈ l := by
  induction l with
  | nil => simp [setInsert]
  | cons y rest ih =>
    unfold setInsert
    split_ifs with h1 h2
    · simp [List.mem_cons]
    · subst h2
      simp only [List.mem_cons]
      tauto
    · simp only [List.mem_cons, ih]
      tauto

theorem sorted_setInsert (x : Nat) (l : List Nat)
    (hs : List.Pairwise (· < ·) l) : List.Pairwise (· < ·) (setInsert x l) := by
  induction l with
  | nil => simp [setInsert]
  | cons y rest ih =>
    rw [List.pairwise_cons] at hs
    unfold setInsert
    split_ifs with h1 h2
    · rw [List.pairwise_cons]
      refine ⟨?_, List.pairwise_cons.mpr hs⟩
      intro a ha
      rw [List.mem_cons] at ha
      rcases ha with h | h
      · omega
      · have := hs.1 a h
        omega
    · exact List.pairwise_cons.mpr hs
    · rw [List.pairwise_cons]
      refine ⟨?_, ih hs.2⟩
      intro a ha
      rcases (mem_setInsert x rest a).mp ha with h | h
      · omega
      · exact hs.1 a h

theorem setErase_sublist (x : Nat) (l : List Nat) :
    List.Sublist (setErase x l) l := by
  induction l with
  | nil => simp [setErase]
  | cons y rest ih =>
    unfold setErase
    split_ifs
    · exact List.sublist_cons_self _ _
    · exact List.Sublist.cons₂ _ ih

theorem sorted_setErase (x : Nat) (l : List Nat)
    (hs : List.Pairwise (· < ·) l) : List.Pairwise (· < ·) (setErase x l) :=
  List.Pairwise.sublist (setErase_sublist x l) hs

theorem mem_setErase (x : Nat) (l : List Nat) (a : Nat)
    (hs : List.Pairwise (· < ·) l) :
    a ∈ setErase x l ↔ a ∈ l ∧ a ≠ x := by
  induction l with
  | nil => simp [setErase]
  | cons y rest ih =>
    rw [List.pairwise_cons] at hs
    unfold setErase
    split_ifs with h1
    · subst h1
      simp only [List.mem_cons]
      constructor
      · intro h
        have := hs.1 a h
        exact ⟨Or.inr h, by omega⟩
      · intro ⟨h, hne⟩
        rcases h with h | h
        · omega
        · exact h
    · simp only [List.mem_cons, ih hs.2]
      constructor
      · intro h
        rcases h with h | ⟨h, hne⟩
        · exact ⟨Or.inl h, by omega⟩
        · exact ⟨Or.inr h, hne⟩
      · intro ⟨h, hne⟩
        rcases h with h | h
        · exact Or.inl h
        · exact Or.inr ⟨h, hne⟩

theorem mem_foldl_setInsert (l : List Nat) (G : List Nat) (a : Nat) :
    a ∈ l.foldl (fun g m => setInsert m g) G ↔ a ∈ G ∨ a ∈ l := by
  induction l generalizing G with
  | nil => simp
  | cons x rest ih =>
    simp only [List.foldl_cons, ih, mem_setInsert, List.mem_cons]
    tauto

theorem sorted_foldl_setInsert (l : List Nat) (G : List Nat)
    (hs : List.Pairwise (· < ·) G) :
    List.Pairwise (· < ·) (l.foldl (fun g m => setInsert m g) G) := by
  induction l generalizing G with
  | nil => exact hs
  | cons x rest ih => exact ih _ (sorted_setInsert x G hs)

theorem insertRange_fields (l : List Nat) (st : State) :
    (l.foldl
        (fun s missing =>
          { s with gaps := setInsert missing s.gaps, total_gaps := s.total_gaps + 1 })
        st).last_sequence = st.last_sequence ∧
    (l.foldl
        (fun s missing =>
          { s with gaps := setInsert missing s.gaps, total_gaps := s.total_gaps + 1 })
        st).first_message = st.first_message ∧
    (l.foldl
        (fun s missing =>
          { s with gaps := setInsert missing s.gaps, total_gaps := s.total_gaps + 1 })
        st).gaps = l.foldl (fun g m => setInsert m g) st.gaps := by
  induction l generalizing st with
  | nil => exact ⟨rfl, rfl, rfl⟩
  | cons x rest ih => exact ih _

theorem insertRange_last (st : State) (e x : Nat) :
    (insertRange st e x).last_sequence = st.last_sequence := by
  unfold insertRange
  exact (insertRange_fields _ _).1

theorem insertRange_first (st : State) (e x : Nat) :
    (insertRange st e x).first_message = st.first_message := by
  unfold insertRange
  exact (insertRange_fields _ _).2.1

theorem insertRange_gaps (st : State) (e x : Nat) :
    (insertRange st e x).gaps =
      (List.range' e (x - e)).foldl (fun g m => setInsert m g) st.gaps := by
  unfold insertRange
  exact (insertRange_fields _ _).2.2

theorem Inv_inorder (first : Nat) (processed : List Nat) (st : State) (x : Nat)
    (hinv : Inv first processed st) (hx : x = st.last_sequence + 1) :
    Inv first (processed ++ [x])
      { st with last_sequence := x, gaps := setErase x st.gaps } := by
  obtain ⟨hfm, hsorted, hmem, hub, hchar⟩ := hinv
  refine ⟨hfm, sorted_setErase x st.gaps hsorted, by simp, ?_, ?_⟩
  · intro r hr
    show r ≤ x
    simp only [List.mem_cons, List.mem_append, List.mem_singleton, List.not_mem_nil, or_false] at hr
    rcases hr with h | h | h
    · have := hub r (by simp [h])
      omega
    · have := hub r (by simp [h])
      omega
    · omega
  · intro y
    show y ∈ setErase x st.gaps ↔ first < y ∧ y < x ∧ y ∉ first :: (processed ++ [x])
    rw [mem_setErase x st.gaps y hsorted, hchar y]
    simp only [List.mem_cons, List.mem_append, List.mem_singleton, List.not_mem_nil, or_false,
      not_or]
    constructor
    · rintro ⟨⟨hfy, hys, hy1, hy2⟩, hyx⟩
      exact ⟨hfy, by omega, hy1, hy2, hyx⟩
    · rintro ⟨hfy, hyx', hy1, hy2, hy3⟩
      have hsR : st.last_sequence = first ∨ st.last_sequence ∈ processed := by
        simpa [List.mem_cons] using hmem
      have hys : y < st.last_sequence := by
        rcases Nat.lt_or_ge y st.last_sequence with h | h
        · exact h
        · exfalso
          have : y = st.last_sequence := by omega
          subst this
          rcases hsR with h' | h'
          · exact hy1 h'
          · exact hy2 h'
      exact ⟨⟨hfy, hys, hy1, hy2⟩, hy3⟩

theorem Inv_gap (first : Nat) (processed : List Nat) (st : State) (x : Nat)
    (hinv : Inv first processed st) (hx : x > st.last_sequence + 1) :
    Inv first (processed ++ [x])
      { insertRange st (st.last_sequence + 1) x with last_sequence := x } := by
  obtain ⟨hfm, hsorted, hmem, hub, hchar⟩ := hinv
  have hfirst_le : first ≤ st.last_sequence := hub first (by simp)
  refine ⟨?_, ?_, by simp, ?_, ?_⟩
  · show (insertRange st (st.last_sequence + 1) x).first_message = false
    rw [insertRange_first]
    exact hfm
  · show List.Pairwise (· < ·) (insertRange st (st.last_sequence + 1) x).gaps
    rw [insertRange_gaps]
    exact sorted_foldl_setInsert _ _ hsorted
  · intro r hr
    show r ≤ x
    simp only [List.mem_cons, List.mem_append, List.mem_singleton, List.not_mem_nil, or_false] at hr
    rcases hr with h | h | h
    · have := hub r (by simp [h])
      omega
    · have := hub r (by simp [h])
      omega
    · omega
  · intro y
    show y ∈ (insertRange st (st.last_sequence + 1) x).gaps ↔
      first < y ∧ y < x ∧ y ∉ first :: (processed ++ [x])
    rw [insertRange_gaps, mem_foldl_setInsert, hchar y, List.mem_range'_1]
    simp only [List.mem_cons, List.mem_append, List.mem_singleton, List.not_mem_nil, or_false,
      not_or]
    constructor
    · rintro (⟨hfy, hys, hy1, hy2⟩ | ⟨hylo, hyhi⟩)
      · exact ⟨hfy, by omega, hy1, hy2, by omega⟩
      · have hylt : y < x := by omega
        have hygt : st.last_sequence < y := by omega
        refine ⟨by omega, hylt, by omega, ?_, by omega⟩
        intro hcon
        have := hub y (by simp [hcon])
        omega
    · rintro ⟨hfy, hyx, hy1, hy2, hy3⟩
      have hsR : st.last_sequence = first ∨ st.last_sequence ∈ processed := by
        simpa [List.mem_cons] using hmem
      rcases Nat.lt_or_ge y st.last_sequence with h | h
      · exact Or.inl ⟨hfy, h, hy1, hy2⟩
      · rcases Nat.eq_or_lt_of_le h with h' | h'
        · exfalso
          rcases hsR with h'' | h''
          · exact hy1 (h' ▸ h'')
          · exact hy2 (h' ▸ h'')
        · exact Or.inr ⟨by omega, by omega⟩

theorem Inv_fill (first : Nat) (processed : List Nat) (st : State) (x : Nat)
    (hinv : Inv first processed st) (hmemx : x ∈ st.gaps) :
    Inv first (processed ++ [x]) { st with gaps := setErase x st.gaps } := by
  obtain ⟨hfm, hsorted, hmem, hub, hchar⟩ := hinv
  have hxprop := (hchar x).mp hmemx
  refine ⟨hfm, sorted_setErase x st.gaps hsorted,
    by simp only [List.mem_cons, List.mem_append, List.mem_singleton] at hmem ⊢; tauto,
    ?_, ?_⟩
  · intro r hr
    show r ≤ st.last_sequence
    simp only [List.mem_cons, List.mem_append, List.mem_singleton, List.not_mem_nil, or_false] at hr
    rcases hr with h | h | h
    · exact hub r (by simp [h])
    · exact hub r (by simp [h])
    · omega
  · intro y
    show y ∈ setErase x st.gaps ↔
      first < y ∧ y < st.last_sequence ∧ y ∉ first :: (processed ++ [x])
    rw [mem_setErase x st.gaps y hsorted, hchar y]
    simp only [List.mem_cons, List.mem_append, List.mem_singleton, List.not_mem_nil, or_false,
      not_or]
    constructor
    · rintro ⟨⟨hfy, hys, hy1, hy2⟩, hyx⟩
      exact ⟨hfy, hys, hy1, hy2, hyx⟩
    · rintro ⟨hfy, hys, hy1, hy2, hy3⟩
      exact ⟨⟨hfy, hys, hy1, hy2⟩, hy3⟩

theorem Inv_dup (first : Nat) (processed : List Nat) (st : State) (x : Nat)
    (hinv : Inv first processed st) (hle : x ≤ st.last_sequence)
    (hnm : x ∉ st.gaps) : Inv first (processed ++ [x]) st := by
  obtain ⟨hfm, hsorted, hmem, hub, hchar⟩ := hinv
  refine ⟨hfm, hsorted,
    by simp only [List.mem_cons, List.mem_append, List.mem_singleton] at hmem ⊢; tauto,
    ?_, ?_⟩
  · intro r hr
    simp only [List.mem_cons, List.mem_append, List.mem_singleton, List.not_mem_nil, or_false] at hr
    rcases hr with h | h | h
    · exact hub r (by simp [h])
    · exact hub r (by simp [h])
    · omega
  · intro y
    rw [hchar y]
    simp only [List.mem_cons, List.mem_append, List.mem_singleton, List.not_mem_nil, or_false,
      not_or]
    constructor
    · rintro ⟨hfy, hys, hy1, hy2⟩
      refine ⟨hfy, hys, hy1, hy2, ?_⟩
      intro hcon
      subst hcon
      have hmem2 : y ∉ first :: processed := by
        simp only [List.mem_cons, not_or]
        exact ⟨hy1, hy2⟩
      exact hnm ((hchar y).mpr ⟨hfy, hys, hmem2⟩)
    · rintro ⟨hfy, hys, hy1, hy2, hy3⟩
      exact ⟨hfy, hys, hy1, hy2⟩

theorem Inv_step (first : Nat) (processed : List Nat) (st : State) (x : Nat)
    (hinv : Inv first processed st) (hlast : st.last_sequence < 2 ^ 64 - 1) :
    Inv first (processed ++ [x]) (process_sequence st x).1 := by
  have hfm := hinv.1
  have hexp : (st.last_sequence + 1) % 2 ^ 64 = st.last_sequence + 1 :=
    Nat.mod_eq_of_lt (by omega)
  unfold process_sequence
  rw [if_neg (by rw [hfm]; exact Bool.false_ne_true)]
  dsimp only
  rw [hexp]
  split_ifs with h1 h2 h3
  · exact Inv_inorder first processed st x hinv h1
  · exact Inv_gap first processed st x hinv h2
  · exact Inv_fill first processed st x hinv h3
  · exact Inv_dup first processed st x hinv (by omega) h3

theorem Inv_start (first : Nat) : Inv first [] (process_sequence init first).1 := by
  have hstep : process_sequence init first =
      ({ init with last_sequence := first, first_message := false }, true) := by
    unfold process_sequence init
    simp
  rw [hstep]
  refine ⟨rfl, List.Pairwise.nil, by simp, ?_, ?_⟩
  · intro r hr
    simp only [List.mem_cons, List.not_mem_nil, or_false] at hr
    subst hr
    exact Nat.le_refl _
  · intro y
    constructor
    · intro h
      exact absurd h (List.not_mem_nil y)
    · rintro ⟨h1, h2, _⟩
      show y ∈ ([] : List Nat)
      exact absurd (lt_trans h1 h2) (lt_irrefl first)

theorem Inv_process_list (rest : List Nat) (first : Nat) (processed : List Nat)
    (st : State) (hinv : Inv first processed st)
    (hbound : ∀ r ∈ first :: processed, r < 2 ^ 64 - 1)
    (hrest : ∀ r ∈ rest, r < 2 ^ 64 - 1) :
    Inv first (processed ++ rest) (process_list st rest) := by
  induction rest generalizing processed st with
  | nil => simpa using hinv
  | cons x xs ih =>
    simp only [process_list]
    have hlast : st.last_sequence < 2 ^ 64 - 1 := hbound _ hinv.2.2.1
    have hb' : ∀ r ∈ first :: (processed ++ [x]), r < 2 ^ 64 - 1 := by
      intro r hr
      simp only [List.mem_cons, List.mem_append, List.mem_singleton, List.not_mem_nil, or_false] at hr
      rcases hr with h | h | h
      · exact hbound r (by simp [h])
      · exact hbound r (by simp [h])
      · exact h ▸ hrest x (by simp)
    have := ih (processed ++ [x]) (process_sequence st x).1
      (Inv_step first processed st x hinv hlast) hb'
      (fun r hr => hrest r (by simp [hr]))
    simpa [List.append_assoc] using this

theorem rangesLoop_spec (l : List Nat) (s e : Nat) (hse : s ≤ e)
    (hl : List.Pairwise (· < ·) l) (he : ∀ y ∈ l, e < y) :
    (∀ z, (∃ r ∈ rangesLoop s e l, r.1 ≤ z ∧ z ≤ r.2) ↔
      (s ≤ z ∧ z ≤ e) ∨ z ∈ l) ∧
    (∀ r ∈ rangesLoop s e l, r.1 ≤ r.2) ∧
    List.Chain' (fun a b => a.2 + 2 ≤ b.1) (rangesLoop s e l) ∧
    ∃ e' tl, rangesLoop s e l = (s, e') :: tl := by
  induction l generalizing s e with
  | nil =>
    refine ⟨?_, ?_, ?_, e, [], rfl⟩
    · intro z
      simp only [rangesLoop, List.mem_singleton, List.not_mem_nil, or_false]
      constructor
      · rintro ⟨r, hr, h1, h2⟩
        rw [hr] at h1 h2
        exact ⟨h1, h2⟩
      · rintro ⟨h1, h2⟩
        exact ⟨(s, e), rfl, h1, h2⟩
    · intro r hr
      simp only [rangesLoop, List.mem_singleton] at hr
      rw [hr]
      exact hse
    · simp [rangesLoop]
  | cons x rest ih =>
    have hx : e < x := he x (by simp)
    rw [List.pairwise_cons] at hl
    unfold rangesLoop
    split_ifs with h1
    · obtain ⟨hcov, hwf, hch, hhead⟩ := ih s x (by omega) hl.2 hl.1
      refine ⟨?_, hwf, hch, hhead⟩
      intro z
      rw [hcov z]
      simp only [List.mem_cons]
      constructor
      · rintro (⟨h, h'⟩ | h)
        · by_cases hz : z ≤ e
          · exact Or.inl ⟨h, hz⟩
          · exact Or.inr (Or.inl (by omega))
        · exact Or.inr (Or.inr h)
      · rintro (⟨h, h'⟩ | h | h)
        · exact Or.inl ⟨h, by omega⟩
        · exact Or.inl ⟨by omega, by omega⟩
        · exact Or.inr h
    · have hge : e + 2 ≤ x := by omega
      obtain ⟨hcov, hwf, hch, e', tl, heq⟩ := ih x x (Nat.le_refl x) hl.2 hl.1
      refine ⟨?_, ?_, ?_, e, rangesLoop x x rest, rfl⟩
      · intro z
        simp only [List.mem_cons]
        constructor
        · rintro ⟨r, hr, hr1, hr2⟩
          rcases hr with hr | hr
          · rw [hr] at hr1 hr2
            exact Or.inl ⟨hr1, hr2⟩
          · have := (hcov z).mp ⟨r, hr, hr1, hr2⟩
            rcases this with ⟨h, h'⟩ | h
            · exact Or.inr (Or.inl (by omega))
            · exact Or.inr (Or.inr h)
        · rintro (⟨h, h'⟩ | h | h)
          · exact ⟨(s, e), Or.inl rfl, h, h'⟩
          · obtain ⟨r, hr, hr1, hr2⟩ := (hcov z).mpr (Or.inl (by omega))
            exact ⟨r, Or.inr hr, hr1, hr2⟩
          · obtain ⟨r, hr, hr1, hr2⟩ := (hcov z).mpr (Or.inr h)
            exact ⟨r, Or.inr hr, hr1, hr2⟩
      · intro r hr
        rw [List.mem_cons] at hr
        rcases hr with hr | hr
        · rw [hr]
          exact hse
        · exact hwf r hr
      · rw [heq, List.chain'_cons]
        refine ⟨by simpa using hge, ?_⟩
        rw [← heq]
        exact hch

theorem get_gap_ranges_spec (st : State) (hs : List.Pairwise (· < ·) st.gaps) :
    (∀ z, (∃ r ∈ get_gap_ranges st, r.1 ≤ z ∧ z ≤ r.2) ↔ z ∈ st.gaps) ∧
    (∀ r ∈ get_gap_ranges st, r.1 ≤ r.2) ∧
    List.Chain' (fun a b => a.2 + 2 ≤ b.1) (get_gap_ranges st) := by
  unfold get_gap_ranges
  rcases hgl : st.gaps with _ | ⟨x, rest⟩
  · simp
  · rw [hgl, List.pairwise_cons] at hs
    obtain ⟨hcov, hwf, hch, _⟩ := rangesLoop_spec rest x x (Nat.le_refl x) hs.2 hs.1
    refine ⟨?_, hwf, hch⟩
    intro z
    rw [hcov z]
    simp only [List.mem_cons]
    constructor
    · rintro (⟨h1, h2⟩ | h)
      · exact Or.inl (by omega)
      · exact Or.inr h
    · rintro (h | h)
      · rw [h]
        exact Or.inl ⟨Nat.le_refl x, Nat.le_refl x⟩
      · exact Or.inr h

end GapTracker

/-- Counterexample to claim C5 as stated (over all `uint64` input
mixes): after the history `[2^64 - 1, 3]` the wrapped
`expected = last_sequence_ + 1 = 0` sends input `3` into the gap branch,
which inserts `{0, 1, 2}` into the gap set — `get_gap_ranges()` then
covers the value `0`, which is not strictly between the first received
sequence `2^64 - 1` and `last_sequence_ = 3`, so the ranges are not the
claimed complement over that interval (the claimed set is empty). -/
theorem C5_counterexample :
    (GapTracker.process_list GapTracker.init [2 ^ 64 - 1, 3]).gaps = [0, 1, 2] ∧
    (GapTracker.process_list GapTracker.init [2 ^ 64 - 1, 3]).last_sequence = 3 ∧
    (∃ r ∈ GapTracker.get_gap_ranges
        (GapTracker.process_list GapTracker.init [2 ^ 64 - 1, 3]),
      r.1 ≤ 0 ∧ 0 ≤ r.2) ∧
    ¬(2 ^ 64 - 1 < 0) := by
  refine ⟨by decide, by decide, ⟨(0, 2), by decide, by decide, by decide⟩, by decide⟩

/-- Claim C5 (amended): UDP gap-tracker ranges.  After any mix of first,
in-order, gap, duplicate and late-fill inputs — any nonempty list of
sequence numbers below `2^64 - 1`, so that the `uint64` sum
`expected = last_sequence_ + 1` cannot wrap — `get_gap_ranges()` returns
exactly the maximal contiguous inclusive ranges, in increasing order, of
the sequence numbers strictly between the first received sequence and
`last_sequence_` that have not been received: every range is
well-formed, consecutive ranges are separated by at least one received
value, and a value is covered by some range exactly when it lies
strictly between the first received value and `last_sequence_` and was
never received.  In particular, for inputs `1,2,5,3,4` the gap set is
`{3,4}` after `5`, `{4}` after `3`, and empty after `4`.  (An input
equal to `2^64 - 1` wraps `expected` to 0 and breaks the
characterization; see the counterexample.) -/
theorem C5_udp_gap_ranges (first : Nat) (rest : List Nat)
    (hb : ∀ r ∈ first :: rest, r < 2 ^ 64 - 1) :
    (∀ z,
      (∃ r ∈ GapTracker.get_gap_ranges
          (GapTracker.process_list GapTracker.init (first :: rest)),
        r.1 ≤ z ∧ z ≤ r.2) ↔
      (first < z ∧
        z < (GapTracker.process_list GapTracker.init (first :: rest)).last_sequence ∧
        z ∉ first :: rest)) ∧
    (∀ r ∈ GapTracker.get_gap_ranges
        (GapTracker.process_list GapTracker.init (first :: rest)), r.1 ≤ r.2) ∧
    List.Chain' (fun a b => a.2 + 2 ≤ b.1)
      (GapTracker.get_gap_ranges
        (GapTracker.process_list GapTracker.init (first :: rest))) ∧
    (GapTracker.process_list GapTracker.init [1, 2, 5]).gaps = [3, 4] ∧
    (GapTracker.process_list GapTracker.init [1, 2, 5, 3]).gaps = [4] ∧
    (GapTracker.process_list GapTracker.init [1, 2, 5, 3, 4]).gaps = [] := by
  have hinv : GapTracker.Inv first rest
      (GapTracker.process_list GapTracker.init (first :: rest)) := by
    have h0 := GapTracker.Inv_start first
    have := GapTracker.Inv_process_list rest first [] _ h0
      (by intro r hr; simp only [List.mem_cons, List.not_mem_nil, or_false] at hr;
          exact hr ▸ hb first (by simp))
      (fun r hr => hb r (by simp [hr]))
    simpa [GapTracker.process_list] using this
  obtain ⟨hfm, hsorted, hmem, hub, hchar⟩ := hinv
  obtain ⟨hcov, hwf, hch⟩ := GapTracker.get_gap_ranges_spec _ hsorted
  refine ⟨?_, hwf, hch, by decide, by decide, by decide⟩
  intro z
  rw [hcov z, hchar z]

/-- Witness for C5 at the S4 input sequence `1,2,5,3,4`. -/
theorem C5_udp_gap_ranges_witness :
    (∀ z,
      (∃ r ∈ GapTracker.get_gap_ranges
          (GapTracker.process_list GapTracker.init (1 :: [2, 5, 3, 4])),
        r.1 ≤ z ∧ z ≤ r.2) ↔
      (1 < z ∧
        z < (GapTracker.process_list GapTracker.init (1 :: [2, 5, 3, 4])).last_sequence ∧
        z ∉ 1 :: [2, 5, 3, 4])) ∧
    (∀ r ∈ GapTracker.get_gap_ranges
        (GapTracker.process_list GapTracker.init (1 :: [2, 5, 3, 4])), r.1 ≤ r.2) ∧
    List.Chain' (fun a b => a.2 + 2 ≤ b.1)
      (GapTracker.get_gap_ranges
        (GapTracker.process_list GapTracker.init (1 :: [2, 5, 3, 4]))) ∧
    (GapTracker.process_list GapTracker.init [1, 2, 5]).gaps = [3, 4] ∧
    (GapTracker.process_list GapTracker.init [1, 2, 5, 3]).gaps = [4] ∧
    (GapTracker.process_list GapTracker.init [1, 2, 5, 3, 4]).gaps = [] :=
  C5_udp_gap_ranges 1 [2, 5, 3, 4] (by decide)

/-! ### Connection state machine (claim C8) -/

/-- Counterexample to claim C8 as stated: `SNAPSHOT_REQUEST` is reachable
(connect from `DISCONNECTED`, then `transition_to_snapshot_request`), and
invoking `connect()` there with a successful socket moves the machine to
`CONNECTED` — the state changes although no row of the §4.6 table maps
`SnapshotRequest` under `connect()`, contradicting "connect invoked in
any state other than Disconnected leaves the state unchanged". -/
theorem C8_counterexample :
    (ConnMgr.transition_to_snapshot_request
        (ConnMgr.connect 3 (ConnMgr.mk0 30))).state = ConnMgr.St.snapshotRequest ∧
    (ConnMgr.connect 3 (ConnMgr.transition_to_snapshot_request
        (ConnMgr.connect 3 (ConnMgr.mk0 30)))).state = ConnMgr.St.connected := by
  refine ⟨?_, ?_⟩ <;> decide

/-- Claim C8 (amended): full characterization of every externally
invoked operation.  The four explicit transitions and `disconnect` follow
the §4.6 table (changing state only from their designated source states);
`mark_snapshot_requested` never changes the state; but `connect()` is a
no-op only in `CONNECTED` and `INCREMENTAL` — called in any other state
(including `SnapshotRequest` and `SnapshotReplay`) it performs a fresh
connection attempt and lands in `CONNECTED` or `DISCONNECTED` according
to the socket result, and `reconnect()` does the same from every state. -/
theorem C8_state_machine_characterization (m : ConnMgr.M) (fd : Int) :
    ((ConnMgr.transition_to_snapshot_request m).state =
      if m.state = ConnMgr.St.connected then ConnMgr.St.snapshotRequest else m.state) ∧
    ((ConnMgr.transition_to_snapshot_replay m).state =
      if m.state = ConnMgr.St.snapshotRequest then ConnMgr.St.snapshotReplay
      else m.state) ∧
    ((ConnMgr.transition_to_incremental m).state =
      if m.state = ConnMgr.St.snapshotReplay then ConnMgr.St.incremental
      else m.state) ∧
    (ConnMgr.mark_snapshot_requested m).state = m.state ∧
    ((ConnMgr.disconnect m).state =
      if m.state = ConnMgr.St.reconnecting then ConnMgr.St.reconnecting
      else ConnMgr.St.disconnected) ∧
    ((m.state = ConnMgr.St.connected ∨ m.state = ConnMgr.St.incremental) →
      ConnMgr.connect fd m = m) ∧
    (¬(m.state = ConnMgr.St.connected ∨ m.state = ConnMgr.St.incremental) →
      (ConnMgr.connect fd m).state =
        if fd ≥ 0 then ConnMgr.St.connected else ConnMgr.St.disconnected) ∧
    (ConnMgr.reconnect fd m).state =
      if fd ≥ 0 then ConnMgr.St.connected else ConnMgr.St.disconnected := by
  obtain ⟨st, fd0, ra, cb, mb, sr⟩ := m
  refine ⟨?_, ?_, ?_, rfl, ?_, ?_, ?_, ?_⟩
  · unfold ConnMgr.transition_to_snapshot_request
    split_ifs <;> rfl
  · unfold ConnMgr.transition_to_snapshot_replay
    split_ifs <;> rfl
  · unfold ConnMgr.transition_to_incremental
    split_ifs <;> rfl
  · unfold ConnMgr.disconnect
    split_ifs <;> simp_all
  · intro h
    unfold ConnMgr.connect
    rw [if_pos h]
  · intro h
    unfold ConnMgr.connect
    rw [if_neg h]
    split_ifs <;> rfl
  · unfold ConnMgr.reconnect ConnMgr.disconnect ConnMgr.connect
    split_ifs <;> simp_all

/-- Witness for C8's amended theorem at a concrete machine state. -/
theorem C8_state_machine_characterization_witness :
    ((ConnMgr.transition_to_snapshot_request ⟨ConnMgr.St.snapshotRequest, 3, 0, 1, 30, false⟩).state =
      if (ConnMgr.M.mk ConnMgr.St.snapshotRequest 3 0 1 30 false).state = ConnMgr.St.connected
      then ConnMgr.St.snapshotRequest
      else (ConnMgr.M.mk ConnMgr.St.snapshotRequest 3 0 1 30 false).state) ∧
    ((ConnMgr.transition_to_snapshot_replay ⟨ConnMgr.St.snapshotRequest, 3, 0, 1, 30, false⟩).state =
      if (ConnMgr.M.mk ConnMgr.St.snapshotRequest 3 0 1 30 false).state = ConnMgr.St.snapshotRequest
      then ConnMgr.St.snapshotReplay
      else (ConnMgr.M.mk ConnMgr.St.snapshotRequest 3 0 1 30 false).state) ∧
    ((ConnMgr.transition_to_incremental ⟨ConnMgr.St.snapshotRequest, 3, 0, 1, 30, false⟩).state =
      if (ConnMgr.M.mk ConnMgr.St.snapshotRequest 3 0 1 30 false).state = ConnMgr.St.snapshotReplay
      then ConnMgr.St.incremental
      else (ConnMgr.M.mk ConnMgr.St.snapshotRequest 3 0 1 30 false).state) ∧
    (ConnMgr.mark_snapshot_requested ⟨ConnMgr.St.snapshotRequest, 3, 0, 1, 30, false⟩).state =
      (ConnMgr.M.mk ConnMgr.St.snapshotRequest 3 0 1 30 false).state ∧
    ((ConnMgr.disconnect ⟨ConnMgr.St.snapshotRequest, 3, 0, 1, 30, false⟩).state =
      if (ConnMgr.M.mk ConnMgr.St.snapshotRequest 3 0 1 30 false).state = ConnMgr.St.reconnecting
      then ConnMgr.St.reconnecting
      else ConnMgr.St.disconnected) ∧
    (((ConnMgr.M.mk ConnMgr.St.snapshotRequest 3 0 1 30 false).state = ConnMgr.St.connected ∨
      (ConnMgr.M.mk ConnMgr.St.snapshotRequest 3 0 1 30 false).state = ConnMgr.St.incremental) →
      ConnMgr.connect 4 ⟨ConnMgr.St.snapshotRequest, 3, 0, 1, 30, false⟩ =
        ⟨ConnMgr.St.snapshotRequest, 3, 0, 1, 30, false⟩) ∧
    (¬((ConnMgr.M.mk ConnMgr.St.snapshotRequest 3 0 1 30 false).state = ConnMgr.St.connected ∨
      (ConnMgr.M.mk ConnMgr.St.snapshotRequest 3 0 1 30 false).state = ConnMgr.St.incremental) →
      (ConnMgr.connect 4 ⟨ConnMgr.St.snapshotRequest, 3, 0, 1, 30, false⟩).state =
        if (4 : Int) ≥ 0 then ConnMgr.St.connected else ConnMgr.St.disconnected) ∧
    (ConnMgr.reconnect 4 ⟨ConnMgr.St.snapshotRequest, 3, 0, 1, 30, false⟩).state =
      if (4 : Int) ≥ 0 then ConnMgr.St.connected else ConnMgr.St.disconnected :=
  C8_state_machine_characterization ⟨ConnMgr.St.snapshotRequest, 3, 0, 1, 30, false⟩ 4

/-! ### TCP frame processing (claim C6) -/

theorem process_messages_nil : process_messages [] = [] := by
  unfold process_messages
  norm_num [HEADER_SIZE]

/-- Claim C6 (amended): the frame loop performs no type or length
validation and never invalidates the connection over a decodable frame —
for every header type byte `t` (recognised or not) and every payload
length (including lengths above 1024), the frame is extracted and
dispatched (unknown types reach the logging `default` branch of the
`switch` in `SnapshotFeedHandler::process_messages`, and are silently
skipped in `BinaryProtocolReader::run`) and the loop continues with the
remaining bytes. -/
theorem C6_reader_continues (t seq : Nat) (payload rest : List Nat)
    (ht : t < 256) (hseq : seq < 2 ^ 64) (hlen : payload.length < 2 ^ 32) :
    process_messages (serialize_header t seq payload.length ++ payload ++ rest) =
      (⟨payload.length, t, seq⟩, payload) :: process_messages rest := by
  have h13 : (serialize_header t seq payload.length).length = 13 :=
    serialize_header_length _ _ _
  have hassoc : serialize_header t seq payload.length ++ payload ++ rest =
      serialize_header t seq payload.length ++ (payload ++ rest) := by
    rw [List.append_assoc]
  have hlength :
      (serialize_header t seq payload.length ++ payload ++ rest).length =
        13 + payload.length + rest.length := by
    simp [h13]
    omega
  have htake :
      (serialize_header t seq payload.length ++ payload ++ rest).take 13 =
        serialize_header t seq payload.length := by
    rw [hassoc, List.take_left' h13]
  have hhdr :
      deserialize_header
          ((serialize_header t seq payload.length ++ payload ++ rest).take 13) =
        ⟨payload.length, t, seq⟩ := by
    rw [htake, show serialize_header t seq payload.length =
      serialize_header t seq payload.length ++ [] by simp]
    exact deserialize_serialize_header t seq payload.length [] ht hlen hseq
  have hdrop13 :
      (serialize_header t seq payload.length ++ payload ++ rest).drop 13 =
        payload ++ rest := by
    rw [hassoc, List.drop_left' h13]
  have hdroptotal :
      (serialize_header t seq payload.length ++ payload ++ rest).drop
          (13 + payload.length) = rest := by
    rw [show serialize_header t seq payload.length ++ payload ++ rest =
      (serialize_header t seq payload.length ++ payload) ++ rest from rfl,
      List.drop_left' (by simp [h13])]
  generalize hR : process_messages rest = R
  unfold process_messages
  rw [dif_neg (by rw [hlength]; unfold HEADER_SIZE; omega)]
  simp only [HEADER_SIZE] at hhdr ⊢
  rw [hhdr]
  rw [dif_neg (by rw [hlength]; simp only; omega)]
  simp only
  rw [hdrop13, hdroptotal, List.take_left, hR]

/-- Witness for C6's amended theorem: a frame with unknown type `0x99`
and declared length 0 is processed and the loop continues. -/
theorem C6_reader_continues_witness :
    process_messages
        (serialize_header 0x99 7 ([] : List Nat).length ++ ([] : List Nat) ++ []) =
      (⟨([] : List Nat).length, 0x99, 7⟩, ([] : List Nat)) :: process_messages [] :=
  C6_reader_continues 0x99 7 [] [] (by norm_num) (by norm_num) (by norm_num)

/-- Counterexample to claim C6 as stated: a frame whose header type
`0x99` is not a recognised message type, followed by a well-formed TICK
frame.  The reader does not stop: it extracts and dispatches both frames
— the TICK after the unknown frame is still decoded and processed. -/
theorem C6_counterexample :
    process_messages
        (serialize_header 0x99 1 0 ++
          serialize_tick 2 1234 [65, 65, 80, 76] 1078530011 100) =
      [(⟨0, 0x99, 1⟩, []),
        (⟨TICK_PAYLOAD_SIZE, TICK, 2⟩,
          toBytesBE 8 1234 ++ [65, 65, 80, 76] ++ toBytesBE 4 1078530011 ++
            toBytesBE 4 100)] := by
  have h1 : serialize_header 0x99 1 0 ++
      serialize_tick 2 1234 [65, 65, 80, 76] 1078530011 100 =
      serialize_header 0x99 1 ([] : List Nat).length ++ [] ++
        serialize_tick 2 1234 [65, 65, 80, 76] 1078530011 100 := by
    simp
  rw [h1, C6_reader_continues 0x99 1 [] _ (by norm_num) (by norm_num) (by norm_num)]
  have h2 : serialize_tick 2 1234 [65, 65, 80, 76] 1078530011 100 =
      serialize_header TICK 2
          (toBytesBE 8 1234 ++ [65, 65, 80, 76] ++ toBytesBE 4 1078530011 ++
            toBytesBE 4 100).length ++
        (toBytesBE 8 1234 ++ [65, 65, 80, 76] ++ toBytesBE 4 1078530011 ++
          toBytesBE 4 100) ++ [] := by
    unfold serialize_tick
    simp only [List.append_nil, List.append_assoc]
    have : (toBytesBE 8 1234 ++ ([65, 65, 80, 76] ++ (toBytesBE 4 1078530011 ++
        toBytesBE 4 100))).length = TICK_PAYLOAD_SIZE := by
      simp [toBytesBE_length, TICK_PAYLOAD_SIZE]
    rw [this]
  rw [h2, C6_reader_continues TICK 2 _ [] (by norm_num [TICK]) (by norm_num)
    (by simp [toBytesBE_length]), process_messages_nil]
  simp [toBytesBE_length, TICK_PAYLOAD_SIZE]

/-! ### Reassembly ring buffer (claim C4) -/

namespace RingBuffer

theorem contents_length (st : State) : (contents st).length = st.size := by
  simp [contents]

theorem contents_init : contents init = [] := rfl

theorem Good_init : Good init := by
  refine ⟨by norm_num [init, BUFFER_SIZE], ?_, by norm_num [init, BUFFER_SIZE]⟩
  show (0 : Nat) = (0 + 0) % BUFFER_SIZE
  norm_num

theorem writeBytes_get (data : List Nat) (buf : Nat → Nat) (pos j : Nat) :
    writeBytes buf pos data j =
      if pos ≤ j ∧ j < pos + data.length then data.getD (j - pos) 0 else buf j := by
  induction data generalizing buf pos with
  | nil =>
    rw [if_neg (by simp only [List.length_nil, Nat.add_zero]; omega)]
    rfl
  | cons b rest ih =>
    show writeBytes (Function.update buf pos b) (pos + 1) rest j = _
    rw [ih]
    by_cases h1 : pos + 1 ≤ j ∧ j < pos + 1 + rest.length
    · rw [if_pos h1, if_pos (by simp only [List.length_cons]; omega)]
      rw [show j - pos = (j - (pos + 1)) + 1 by omega, List.getD_cons_succ]
    · rw [if_neg h1]
      by_cases h2 : j = pos
      · subst h2
        rw [if_pos (by simp only [List.length_cons]; omega)]
        simp
      · rw [if_neg (by simp only [List.length_cons]; omega),
          Function.update_noteq h2]

theorem range_drop (a b : Nat) :
    (List.range (a + b)).drop a = (List.range b).map fun i => a + i := by
  rw [List.range_add, List.drop_left' (List.length_range a)]

theorem map_getD_range (l : List Nat) :
    (List.range l.length).map (fun i => l.getD i 0) = l := by
  induction l with
  | nil => rfl
  | cons a t ih =>
    rw [List.length_cons, List.range_succ_eq_map, List.map_cons, List.getD_cons_zero,
      List.map_map]
    have hc : ((fun i => (a :: t).getD i 0) ∘ Nat.succ) = fun i => t.getD i 0 :=
      funext fun i => List.getD_cons_succ
    rw [hc, ih]

theorem writableLen_spec (st : State) (hg : Good st) :
    st.write_pos + writableLen st ≤ BUFFER_SIZE ∧
    st.size + writableLen st ≤ BUFFER_SIZE - 1 ∧
    st.write_pos < BUFFER_SIZE := by
  obtain ⟨h1, h2, h3⟩ := hg
  simp only [writableLen]
  unfold BUFFER_SIZE at *
  split_ifs <;> omega

theorem writeOp_spec (st : State) (data : List Nat) (hg : Good st)
    (hn : data.length ≤ writableLen st) :
    Good (writeOp st data) ∧ contents (writeOp st data) = contents st ++ data := by
  obtain ⟨hww, hsw, hwlt⟩ := writableLen_spec st hg
  obtain ⟨h1, h2, h3⟩ := hg
  have hwn : st.write_pos + data.length ≤ BUFFER_SIZE := by omega
  have hsn : st.size + data.length ≤ BUFFER_SIZE - 1 := by omega
  refine ⟨⟨h1, ?_, hsn⟩, ?_⟩
  · show (st.write_pos + data.length) % BUFFER_SIZE =
      (st.read_pos + (st.size + data.length)) % BUFFER_SIZE
    rw [h2, Nat.mod_add_mod]
    congr 1
    omega
  · unfold contents writeOp
    dsimp only
    rw [List.range_add, List.map_append, List.map_map]
    congr 1
    · apply List.map_congr_left
      intro i hi
      rw [List.mem_range] at hi
      rw [writeBytes_get]
      rw [if_neg ?_]
      simp only [BUFFER_SIZE] at *
      omega
    · have hstep : ∀ i ∈ List.range data.length,
          ((fun i => writeBytes st.buf st.write_pos data ((st.read_pos + i) % BUFFER_SIZE)) ∘
            fun x => st.size + x) i = data.getD i 0 := by
        intro i hi
        rw [List.mem_range] at hi
        simp only [Function.comp]
        rw [writeBytes_get]
        have hk : (st.read_pos + (st.size + i)) % BUFFER_SIZE = st.write_pos + i := by
          rw [h2]
          simp only [BUFFER_SIZE] at *
          omega
        rw [hk, if_pos (by omega)]
        congr 1
        omega
      rw [List.map_congr_left hstep, map_getD_range]

theorem consume_good (st : State) (n : Nat) (hg : Good st) : Good (consume st n) := by
  obtain ⟨h1, h2, h3⟩ := hg
  refine ⟨?_, ?_, ?_⟩
  · show (st.read_pos + min n st.size) % BUFFER_SIZE < BUFFER_SIZE
    exact Nat.mod_lt _ (by norm_num [BUFFER_SIZE])
  · show st.write_pos =
      ((st.read_pos + min n st.size) % BUFFER_SIZE + (st.size - min n st.size)) %
        BUFFER_SIZE
    rw [h2, Nat.mod_add_mod]
    congr 1
    omega
  · show st.size - min n st.size ≤ BUFFER_SIZE - 1
    omega

theorem drop_contents_aux (buf : Nat → Nat) (r k m : Nat) :
    (((List.range (k + m)).map fun i => buf ((r + i) % BUFFER_SIZE)).drop k) =
      (List.range m).map fun i => buf ((r + (k + i)) % BUFFER_SIZE) := by
  rw [← List.map_drop, range_drop, List.map_map]
  rfl

theorem consume_contents (st : State) (n : Nat) :
    contents (consume st n) = (contents st).drop (min n st.size) := by
  unfold contents consume
  dsimp only
  have hsz : st.size = min n st.size + (st.size - min n st.size) := by omega
  have hrw :
      ((List.range st.size).map fun i => st.buf ((st.read_pos + i) % BUFFER_SIZE)).drop
          (min n st.size) =
        (List.range (st.size - min n st.size)).map
          fun i => st.buf ((st.read_pos + (min n st.size + i)) % BUFFER_SIZE) := by
    calc ((List.range st.size).map fun i => st.buf ((st.read_pos + i) % BUFFER_SIZE)).drop
            (min n st.size) =
        ((List.range (min n st.size + (st.size - min n st.size))).map
            fun i => st.buf ((st.read_pos + i) % BUFFER_SIZE)).drop (min n st.size) := by
          rw [← hsz]
      _ = _ := drop_contents_aux st.buf st.read_pos _ _
  rw [hrw]
  apply List.map_congr_left
  intro i hi
  congr 1
  rw [Nat.mod_add_mod, Nat.add_assoc]

theorem read_bytes_success (st : State) (n : Nat) (h : n ≤ st.size) :
    read_bytes st n = (consume st n, some ((contents st).take n)) := by
  unfold read_bytes peek_bytes
  rw [if_pos h]
  have : (contents st).take n =
      (List.range n).map fun i => st.buf ((st.read_pos + i) % BUFFER_SIZE) := by
    unfold contents
    rw [← List.map_take, List.take_range, Nat.min_eq_left h]
  rw [this]

theorem read_bytes_fail (st : State) (n : Nat) (h : ¬n ≤ st.size) :
    read_bytes st n = (st, none) := by
  unfold read_bytes peek_bytes
  rw [if_neg h]

theorem run_spec (ops : List Op) (st : State) (hg : Good st)
    (hv : validFrom st ops = true) :
    Good (run st ops) ∧
    (run st ops).size + consumedFrom st ops = st.size + committedTotal ops ∧
    consumedFrom st ops ≤ st.size + committedTotal ops ∧
    contents (run st ops) =
      (contents st ++ committedBytes ops).drop (consumedFrom st ops) := by
  induction ops generalizing st with
  | nil =>
    refine ⟨hg, by simp [run, consumedFrom, committedTotal], by simp [consumedFrom], ?_⟩
    simp [run, consumedFrom, committedBytes]
  | cons op rest ih =>
    cases op with
    | write data =>
      have hd : data.length ≤ writableLen st ∧
          validFrom (step st (.write data)) rest = true := by
        simpa [validFrom, Bool.and_eq_true, decide_eq_true_eq] using hv
      obtain ⟨hd1, hv'⟩ := hd
      simp only [step] at hv'
      obtain ⟨hg', hc'⟩ := writeOp_spec st data hg hd1
      obtain ⟨ih1, ih2, ih3, ih4⟩ := ih (writeOp st data) hg' hv'
      have hrun : run st (Op.write data :: rest) = run (writeOp st data) rest := by
        simp only [run, step]
      have hcf : consumedFrom st (Op.write data :: rest) =
          consumedFrom (writeOp st data) rest := by
        simp only [consumedFrom, step]
      have hct : committedTotal (Op.write data :: rest) =
          data.length + committedTotal rest := rfl
      have hcb : committedBytes (Op.write data :: rest) =
          data ++ committedBytes rest := rfl
      have hwsize : (writeOp st data).size = st.size + data.length := rfl
      rw [hrun, hcf, hct, hcb]
      rw [hwsize] at ih2 ih3
      refine ⟨ih1, by omega, by omega, ?_⟩
      rw [ih4, hc', List.append_assoc]
    | read n =>
      have hstepv : validFrom ((read_bytes st n).1) rest = true := by
        simpa [validFrom, step] using hv
      have hct : committedTotal (Op.read n :: rest) = committedTotal rest := rfl
      have hcb : committedBytes (Op.read n :: rest) = committedBytes rest := rfl
      by_cases hle : n ≤ st.size
      · have hstep : (read_bytes st n).1 = consume st n := by
          rw [read_bytes_success st n hle]
        rw [hstep] at hstepv
        obtain ⟨ih1, ih2, ih3, ih4⟩ := ih (consume st n) (consume_good st n hg) hstepv
        have hmin : min n st.size = n := Nat.min_eq_left hle
        have hcsize : (consume st n).size = st.size - n := by
          show st.size - min n st.size = st.size - n
          rw [hmin]
        have hrun : run st (Op.read n :: rest) = run (consume st n) rest := by
          simp only [run, step, hstep]
        have hcf : consumedFrom st (Op.read n :: rest) =
            n + consumedFrom (consume st n) rest := by
          simp only [consumedFrom, step, hstep]
          rw [if_pos hle]
        rw [hrun, hcf, hct, hcb]
        rw [hcsize] at ih2 ih3
        refine ⟨ih1, by omega, by omega, ?_⟩
        rw [ih4, consume_contents, hmin]
        have hdd : (contents st ++ committedBytes rest).drop
            (n + consumedFrom (consume st n) rest) =
            ((contents st).drop n ++ committedBytes rest).drop
              (consumedFrom (consume st n) rest) := by
          rw [← List.drop_drop,
            List.drop_append_of_le_length (by rw [contents_length]; exact hle)]
        rw [hdd]
      · have hstep : (read_bytes st n).1 = st := by
          rw [read_bytes_fail st n hle]
        rw [hstep] at hstepv
        obtain ⟨ih1, ih2, ih3, ih4⟩ := ih st hg hstepv
        have hrun : run st (Op.read n :: rest) = run st rest := by
          simp only [run, step, hstep]
        have hcf : consumedFrom st (Op.read n :: rest) = consumedFrom st rest := by
          simp only [consumedFrom, step, hstep]
          rw [if_neg hle]
          exact Nat.zero_add _
        rw [hrun, hcf, hct, hcb]
        exact ⟨ih1, ih2, ih3, ih4⟩
    | consumeOp n =>
      have hstepv : validFrom (consume st n) rest = true := by
        simpa [validFrom, step] using hv
      obtain ⟨ih1, ih2, ih3, ih4⟩ := ih (consume st n) (consume_good st n hg) hstepv
      have hct : committedTotal (Op.consumeOp n :: rest) = committedTotal rest := rfl
      have hcb : committedBytes (Op.consumeOp n :: rest) = committedBytes rest := rfl
      have hrun : run st (Op.consumeOp n :: rest) = run (consume st n) rest := by
        simp only [run, step]
      have hcf : consumedFrom st (Op.consumeOp n :: rest) =
          min n st.size + consumedFrom (consume st n) rest := by
        simp only [consumedFrom, step]
      have hcsize : (consume st n).size = st.size - min n st.size := rfl
      rw [hrun, hcf, hct, hcb]
      rw [hcsize] at ih2 ih3
      refine ⟨ih1, by omega, by omega, ?_⟩
      rw [ih4, consume_contents]
      have hdd : (contents st ++ committedBytes rest).drop
          (min n st.size + consumedFrom (consume st n) rest) =
          ((contents st).drop (min n st.size) ++ committedBytes rest).drop
            (consumedFrom (consume st n) rest) := by
        rw [← List.drop_drop,
          List.drop_append_of_le_length (by rw [contents_length]; omega)]
      rw [hdd]

end RingBuffer

/-- Claim C4: ring-buffer no-loss.  For every operation sequence in which
each `commit_write(n)` satisfies `n ≤` the length returned by the
immediately preceding `get_write_ptr()`: `available()` always equals
total bytes committed minus total bytes consumed; the committed-but-
unconsumed bytes are exactly the committed byte stream with the consumed
prefix removed, in commit order; `read_bytes(dst, n)` fails exactly when
`n > available()` and otherwise returns the next `n` of those bytes
while consuming them; `consume(n)` clamps to `available()` rather than
underflowing; and the byte count never reaches capacity
(`size ≤ capacity - 1`), keeping full and empty distinguishable. -/
theorem C4_ring_buffer_no_loss (ops : List RingBuffer.Op) (n : Nat)
    (hv : RingBuffer.validFrom RingBuffer.init ops = true) :
    RingBuffer.available (RingBuffer.run RingBuffer.init ops) +
        RingBuffer.consumedFrom RingBuffer.init ops =
      RingBuffer.committedTotal ops ∧
    RingBuffer.consumedFrom RingBuffer.init ops ≤ RingBuffer.committedTotal ops ∧
    (RingBuffer.run RingBuffer.init ops).size ≤ RingBuffer.BUFFER_SIZE - 1 ∧
    RingBuffer.contents (RingBuffer.run RingBuffer.init ops) =
      (RingBuffer.committedBytes ops).drop
        (RingBuffer.consumedFrom RingBuffer.init ops) ∧
    ((RingBuffer.read_bytes (RingBuffer.run RingBuffer.init ops) n).2 = none ↔
      n > RingBuffer.available (RingBuffer.run RingBuffer.init ops)) ∧
    (n ≤ RingBuffer.available (RingBuffer.run RingBuffer.init ops) →
      RingBuffer.read_bytes (RingBuffer.run RingBuffer.init ops) n =
        (RingBuffer.consume (RingBuffer.run RingBuffer.init ops) n,
          some ((RingBuffer.contents (RingBuffer.run RingBuffer.init ops)).take n))) ∧
    (RingBuffer.consume (RingBuffer.run RingBuffer.init ops) n).size =
      RingBuffer.available (RingBuffer.run RingBuffer.init ops) -
        min n (RingBuffer.available (RingBuffer.run RingBuffer.init ops)) := by
  obtain ⟨hgood, hsize, hle, hcont⟩ :=
    RingBuffer.run_spec ops RingBuffer.init RingBuffer.Good_init hv
  have hinit_size : RingBuffer.init.size = 0 := rfl
  refine ⟨?_, ?_, hgood.2.2, ?_, ?_, ?_, rfl⟩
  · show (RingBuffer.run RingBuffer.init ops).size + _ = _
    omega
  · omega
  · rw [hcont, RingBuffer.contents_init, List.nil_append]
  · by_cases h : n ≤ (RingBuffer.run RingBuffer.init ops).size
    · rw [RingBuffer.read_bytes_success _ n h]
      simp only [RingBuffer.available]
      constructor
      · intro hc
        exact absurd hc (by simp)
      · intro hc
        omega
    · rw [RingBuffer.read_bytes_fail _ n h]
      simp only [RingBuffer.available]
      constructor
      · intro _
        omega
      · intro _
        trivial
  · intro h
    exact RingBuffer.read_bytes_success _ n h

/-- Witness for C4 at a concrete valid trace: write three bytes, read
two, then over-consume. -/
theorem C4_ring_buffer_no_loss_witness :
    RingBuffer.available
        (RingBuffer.run RingBuffer.init
          [RingBuffer.Op.write [7, 8, 9], RingBuffer.Op.read 2,
            RingBuffer.Op.consumeOp 5]) +
        RingBuffer.consumedFrom RingBuffer.init
          [RingBuffer.Op.write [7, 8, 9], RingBuffer.Op.read 2,
            RingBuffer.Op.consumeOp 5] =
      RingBuffer.committedTotal
        [RingBuffer.Op.write [7, 8, 9], RingBuffer.Op.read 2,
          RingBuffer.Op.consumeOp 5] ∧
    RingBuffer.consumedFrom RingBuffer.init
        [RingBuffer.Op.write [7, 8, 9], RingBuffer.Op.read 2,
          RingBuffer.Op.consumeOp 5] ≤
      RingBuffer.committedTotal
        [RingBuffer.Op.write [7, 8, 9], RingBuffer.Op.read 2,
          RingBuffer.Op.consumeOp 5] ∧
    (RingBuffer.run RingBuffer.init
        [RingBuffer.Op.write [7, 8, 9], RingBuffer.Op.read 2,
          RingBuffer.Op.consumeOp 5]).size ≤ RingBuffer.BUFFER_SIZE - 1 ∧
    RingBuffer.contents
        (RingBuffer.run RingBuffer.init
          [RingBuffer.Op.write [7, 8, 9], RingBuffer.Op.read 2,
            RingBuffer.Op.consumeOp 5]) =
      (RingBuffer.committedBytes
          [RingBuffer.Op.write [7, 8, 9], RingBuffer.Op.read 2,
            RingBuffer.Op.consumeOp 5]).drop
        (RingBuffer.consumedFrom RingBuffer.init
          [RingBuffer.Op.write [7, 8, 9], RingBuffer.Op.read 2,
            RingBuffer.Op.consumeOp 5]) ∧
    ((RingBuffer.read_bytes
        (RingBuffer.run RingBuffer.init
          [RingBuffer.Op.write [7, 8, 9], RingBuffer.Op.read 2,
            RingBuffer.Op.consumeOp 5]) 1).2 = none ↔
      1 > RingBuffer.available
        (RingBuffer.run RingBuffer.init
          [RingBuffer.Op.write [7, 8, 9], RingBuffer.Op.read 2,
            RingBuffer.Op.consumeOp 5])) ∧
    (1 ≤ RingBuffer.available
        (RingBuffer.run RingBuffer.init
          [RingBuffer.Op.write [7, 8, 9], RingBuffer.Op.read 2,
            RingBuffer.Op.consumeOp 5]) →
      RingBuffer.read_bytes
          (RingBuffer.run RingBuffer.init
            [RingBuffer.Op.write [7, 8, 9], RingBuffer.Op.read 2,
              RingBuffer.Op.consumeOp 5]) 1 =
        (RingBuffer.consume
            (RingBuffer.run RingBuffer.init
              [RingBuffer.Op.write [7, 8, 9], RingBuffer.Op.read 2,
                RingBuffer.Op.consumeOp 5]) 1,
          some
            ((RingBuffer.contents
                (RingBuffer.run RingBuffer.init
                  [RingBuffer.Op.write [7, 8, 9], RingBuffer.Op.read 2,
                    RingBuffer.Op.consumeOp 5])).take 1))) ∧
    (RingBuffer.consume
        (RingBuffer.run RingBuffer.init
          [RingBuffer.Op.write [7, 8, 9], RingBuffer.Op.read 2,
            RingBuffer.Op.consumeOp 5]) 1).size =
      RingBuffer.available
          (RingBuffer.run RingBuffer.init
            [RingBuffer.Op.write [7, 8, 9], RingBuffer.Op.read 2,
              RingBuffer.Op.consumeOp 5]) -
        min 1
          (RingBuffer.available
            (RingBuffer.run RingBuffer.init
              [RingBuffer.Op.write [7, 8, 9], RingBuffer.Op.read 2,
                RingBuffer.Op.consumeOp 5])) :=
  C4_ring_buffer_no_loss
    [RingBuffer.Op.write [7, 8, 9], RingBuffer.Op.read 2, RingBuffer.Op.consumeOp 5] 1
    (by decide)

end FeedCore
